import Mathlib

/-!
# publishing-bot: failure reporting on an issue and go.mod pinning

Shallow embedding of `cmd/publishing-bot/github.go` (`ReportOnIssue`) and of
`cmd/sync-tags/gomod.go` (`updateGomodWithTaggedDependencies`), followed by the
properties established about them.

Conventions of the embedding:
* a Go `string` is its sequence of bytes (`GoString`);
* calls that leave the process (GitHub API, file system, git, subprocesses) are fields of
  an explicit client / environment record, and the functions thread an explicit world or
  return the list of calls they issued;
* `fmt.Errorf` results are values of a structured error type, one constructor per format
  string of the source;
* a pointer that an answer of the GitHub API may leave `nil` is an `Option`, and the
  dereference of a `nil` pointer ends the call with a panic.
-/

set_option autoImplicit false

namespace PublishingBot

/-! ## Go strings and the `strings` functions used by the source -/

/-- A Go string: an immutable sequence of bytes. -/
abbrev GoString := List UInt8

/-- The bytes of an ASCII string literal. -/
def ascii (s : String) : GoString := s.data.map (fun c => UInt8.ofNat c.toNat)

/-- Substring containment, as decided by `strings.Contains(s, substr)`. -/
def Contains (s substr : GoString) : Prop := substr <:+: s

/-- Whether byte `b` lies in the closed range `lo..hi`. -/
def inRange (b : UInt8) (lo hi : Nat) : Bool := decide (lo ≤ b.toNat) && decide (b.toNat ≤ hi)

/-- Width in bytes of the first UTF-8 sequence of `s`, as returned by
`utf8.DecodeRuneInString`: an invalid or truncated sequence has width 1, the empty
string width 0. -/
def decodeRuneWidth : GoString → Nat
  | [] => 0
  | b0 :: rest =>
    let x := b0.toNat
    if x < 0xC2 then 1
    else if x ≤ 0xDF then
      match rest with
      | b1 :: _ => if inRange b1 0x80 0xBF then 2 else 1
      | _ => 1
    else if x ≤ 0xEF then
      let lo := if x = 0xE0 then 0xA0 else 0x80
      let hi := if x = 0xED then 0x9F else 0xBF
      match rest with
      | b1 :: b2 :: _ => if inRange b1 lo hi && inRange b2 0x80 0xBF then 3 else 1
      | _ => 1
    else if x ≤ 0xF4 then
      let lo := if x = 0xF0 then 0x90 else 0x80
      let hi := if x = 0xF4 then 0x8F else 0xBF
      match rest with
      | b1 :: b2 :: b3 :: _ =>
        if inRange b1 lo hi && inRange b2 0x80 0xBF && inRange b3 0x80 0xBF then 4 else 1
      | _ => 1
    else 1

/-- `strings.HasPrefix(s, prefix)`. -/
def stringsHasPrefix (s pre : GoString) : Bool := pre.isPrefixOf s

/-- Replacement of every non-overlapping occurrence of a non-empty `old`, scanning from
the left. `skip` counts the bytes of the occurrence just replaced that are still to be
passed over. -/
def replaceGo (old new : GoString) : Nat → GoString → GoString
  | _, [] => []
  | skip + 1, _ :: cs => replaceGo old new skip cs
  | 0, c :: cs =>
    if stringsHasPrefix (c :: cs) old then new ++ replaceGo old new (old.length - 1) cs
    else c :: replaceGo old new 0 cs

/-- Copy of `s` with `new` written after every UTF-8 sequence. `k` is the number of
bytes of the current sequence still to be copied (0 at a sequence start). -/
def copyRunes (new : GoString) : Nat → GoString → GoString
  | _, [] => []
  | k, c :: cs =>
    let r := if k = 0 then decodeRuneWidth (c :: cs) - 1 else k - 1
    if r = 0 then c :: (new ++ copyRunes new 0 cs) else c :: copyRunes new r cs

/-- `strings.Replace(s, old, new, -1)`: all non-overlapping occurrences of `old` are
replaced by `new`; an empty `old` matches at the beginning of the string and after each
UTF-8 sequence. -/
def stringsReplaceAll (s old new : GoString) : GoString :=
  if old = [] then new ++ copyRunes new 0 s else replaceGo old new 0 s

/-- Pieces of `s` between the non-overlapping occurrences of a non-empty `sep`. -/
def splitGo (sep : GoString) : Nat → GoString → List GoString
  | _, [] => [[]]
  | skip + 1, _ :: cs => splitGo sep skip cs
  | 0, c :: cs =>
    if stringsHasPrefix (c :: cs) sep then [] :: splitGo sep (sep.length - 1) cs
    else
      match splitGo sep 0 cs with
      | p :: ps => (c :: p) :: ps
      | [] => [[c]]

/-- `strings.Split(s, sep)` for a non-empty separator, the case of every call in the
source ("\n" for the log lines, "/" for path elements): the pieces between the
non-overlapping occurrences of `sep`. The splitting of a text into its UTF-8 sequences
that Go does for an empty separator is not part of this definition. -/
def stringsSplit (s sep : GoString) : List GoString := splitGo sep 0 s

/-- `strings.Join(elems, sep)`. -/
def stringsJoin : List GoString → GoString → GoString
  | [], _ => []
  | [a], _ => a
  | a :: b :: rest, sep => a ++ sep ++ stringsJoin (b :: rest) sep

/-- `strings.TrimRight(s, cutset)` for a cutset of ASCII bytes: the trailing bytes that
belong to the cutset are removed. -/
def stringsTrimRight (s cutset : GoString) : GoString :=
  s.rdropWhile (fun b => decide (b ∈ cutset))

/-- The last `n` bytes of `s`, all of `s` when it has fewer: `s[len(s)-n:]`. -/
def lastBytes (n : Nat) (s : GoString) : GoString := s.drop (s.length - n)

/-! ## The log builder -/

/-- Modelled from the spec: the builder type behind `newLogBuilderWithMaxBytes`, which is
not part of the available source. It holds the byte budget of the finished text, the
heading lines, the log pieces and the trailing lines of the text under construction. -/
structure logBuilder where
  maxBytes : Nat
  headings : List GoString
  logs : List GoString
  tailings : List GoString
  deriving DecidableEq

/-- Modelled from the spec: `newLogBuilderWithMaxBytes(maxBytes, rawLogs)`, absent from the
available source: a builder with the byte budget ("a fixed byte budget") that starts
from the raw log text. -/
def newLogBuilderWithMaxBytes (maxBytes : Nat) (rawLogs : GoString) : logBuilder :=
  { maxBytes := maxBytes, headings := [], logs := [rawLogs], tailings := [] }

/-- Modelled from the spec: `addHeading`, "prepend a heading": one more heading line. -/
def logBuilder.addHeading (b : logBuilder) (line : GoString) : logBuilder :=
  { b with headings := b.headings ++ [line] }

/-- Modelled from the spec: `addTailing`, "close the fence": one more trailing line. -/
def logBuilder.addTailing (b : logBuilder) (line : GoString) : logBuilder :=
  { b with tailings := b.tailings ++ [line] }

/-- Modelled from the spec: `trim`, "trim trailing newlines" of every log piece. -/
def logBuilder.trim (b : logBuilder) (cutset : GoString) : logBuilder :=
  { b with logs := b.logs.map (fun l => stringsTrimRight l cutset) }

/-- Modelled from the spec: `split`, "split into lines": every log piece is split. -/
def logBuilder.split (b : logBuilder) (sep : GoString) : logBuilder :=
  { b with logs := b.logs.flatMap (fun l => stringsSplit l sep) }

/-- Modelled from the spec: `filter`, "keep only lines" satisfying the predicate. -/
def logBuilder.filter (b : logBuilder) (predicate : GoString → Bool) : logBuilder :=
  { b with logs := b.logs.filter predicate }

/-- Modelled from the spec: `tail`, "keep at most the last" `n` log pieces. -/
def logBuilder.tail (b : logBuilder) (n : Nat) : logBuilder :=
  { b with logs := b.logs.drop (b.logs.length - n) }

/-- Modelled from the spec: `join`, "rejoin with newlines": the log pieces become one. -/
def logBuilder.join (b : logBuilder) (sep : GoString) : logBuilder :=
  { b with logs := [stringsJoin b.logs sep] }

/-- Modelled from the spec: `log`, the finished text, absent from the available source.
"The whole body must never exceed a fixed byte budget; if the natural content would
exceed it, truncate deterministically before the heading/fence wrapping is finalized so
the result is always valid and within budget": the natural text is the heading lines,
the log pieces and the trailing lines, one per line. When it exceeds the budget, the
log content is cut to the last bytes that fit between the headings and the trailing
lines, which are wrapped around it unchanged; a wrapping that alone exceeds the budget
is cut to the budget as well, so that the text is within budget in every case. -/
def logBuilder.log (b : logBuilder) : GoString :=
  let natural := stringsJoin (b.headings ++ b.logs ++ b.tailings) (ascii "\n")
  if natural.length ≤ b.maxBytes then natural
  else
    let wrapping := stringsJoin (b.headings ++ [[]] ++ b.tailings) (ascii "\n")
    let content := lastBytes (b.maxBytes - wrapping.length) (stringsJoin b.logs (ascii "\n"))
    (stringsJoin (b.headings ++ [content] ++ b.tailings) (ascii "\n")).take b.maxBytes

/-! ## `ReportOnIssue` -/

/-- A Go `error` value as far as `%v` shows it: `nil`, or a value with its message. -/
abbrev GoError := Option GoString

/-- What `%v` prints for an error value. -/
def fmtV (e : GoError) : GoString :=
  match e with
  | none => ascii "<nil>"
  | some msg => msg

/-- The replacement written over every occurrence of the token (32 bytes). -/
def redaction : GoString := ascii "XXXXXXXXXXXXXXXXXXXXXXXXXXXXXXXX"

/-- The first heading: `fmt.Sprintf("The last publishing run failed: %v", e)`. -/
def failureHeading (e : GoError) : GoString :=
  ascii "The last publishing run failed: " ++ fmtV e

/-- The fence line. -/
def fence : GoString := ascii "```"

/-- The comment body of `ReportOnIssue` (github.go:58-69) from the error value and the
already redacted log text. -/
def commentBody (e : GoError) (logs : GoString) : GoString :=
  newLogBuilderWithMaxBytes 65000 logs
    |>.addHeading (failureHeading e)
    |>.addHeading fence
    |>.trim (ascii "\n")
    |>.split (ascii "\n")
    |>.filter (fun line => stringsHasPrefix line (ascii "+"))
    |>.tail 50
    |>.join (ascii "\n")
    |>.addTailing fence
    |>.log

/-- The lines of a log text that qualify for the report: the text is trimmed of trailing
newlines and split on "\n", and the lines that begin with "+" are kept, in order. -/
def qualifyingLines (text : GoString) : List GoString :=
  (stringsSplit (stringsTrimRight text (ascii "\n")) (ascii "\n")).filter
    (fun line => stringsHasPrefix line (ascii "+"))

/-- The last `n` lines of a list, all of them when there are fewer. -/
def lastLines (n : Nat) (lines : List GoString) : List GoString :=
  lines.drop (lines.length - n)

/-- The log content of the report for a redacted log text: its last 50 qualifying
lines, joined by newlines. -/
def logSection (logs : GoString) : GoString :=
  stringsJoin (lastLines 50 (qualifyingLines logs)) (ascii "\n")

/-- A log text of 65001 bytes that is one line beginning with "+". -/
def longPlusLine : GoString := 43 :: List.replicate 65000 97

/-- `*github.Response`, of which the source reads the status code. In go-github the
response is not `nil` when the error is `nil`. -/
structure Response where
  StatusCode : Int
  deriving DecidableEq

/-- `*github.User`, of which the source reads the id, an `*int64`: `none` is the `nil`
pointer of a user decoded from an answer without id. -/
structure User where
  ID : Option Int
  deriving DecidableEq

/-- `*github.IssueComment`: its id (an `*int64`), its author (a `*github.User`) and its
body; `none` is the `nil` pointer of a field the answer left out or gave as null. -/
structure IssueComment where
  ID : Option Int
  User : Option User
  Body : GoString
  deriving DecidableEq

/-- What a call of the go-github client returns: the decoded value, the HTTP response
and the error. The source reads `value` and `resp` only when `err` is `nil`. -/
structure ApiResult (α : Type) where
  value : α
  resp : Response
  err : GoError

/-- The methods of `*github.Client` that the source calls, each acting on the world `W`
outside the process. `Users.Get` and `Issues.CreateComment` decode into a freshly
allocated value, so the user and the comment they return with a `nil` error are not
`nil` themselves; the elements of a listing are pointers decoded from the answer, and
`none` is a `nil` element. -/
structure Client (W : Type) where
  UsersGet : GoString → W → ApiResult User × W
  IssuesCreateComment : GoString → GoString → Int → GoString → W → ApiResult IssueComment × W
  IssuesEdit : GoString → GoString → Int → GoString → W → ApiResult Unit × W
  IssuesListComments : GoString → GoString → Int → W → ApiResult (List (Option IssueComment)) × W
  IssuesDeleteComment : GoString → GoString → Int → W → ApiResult Unit × W

/-- The errors `ReportOnIssue` returns, one constructor per `fmt.Errorf` of the source. -/
inductive ReportError where
  /-- Text "failed to get own user: %v". -/
  | getOwnUser (err : GoString)
  /-- Text "failed to get own user: HTTP code %d". -/
  | getOwnUserCode (code : Int)
  /-- Text "failed to comment on issue #%d: %v". -/
  | comment (issue : Int) (err : GoString)
  /-- Text "failed to comment on issue #%d: HTTP code %d". -/
  | commentCode (issue : Int) (code : Int)
  /-- Text "failed to re-open issue #%d: %v". -/
  | reopen (issue : Int) (err : GoString)
  /-- Text "failed to re-open issue #%d: HTTP code %d". -/
  | reopenCode (issue : Int) (code : Int)
  /-- Text "failed to get github comments of issue #%d: %v". -/
  | listComments (issue : Int) (err : GoString)
  /-- Text "failed to get github comments of issue #%d: HTTP code %d". -/
  | listCommentsCode (issue : Int) (code : Int)
  deriving DecidableEq

/-- How a call of `ReportOnIssue` ends: it returns an error value (`none` for `nil`), or
it panics on the dereference of a `nil` pointer. -/
inductive Exit where
  | returned (err : Option ReportError)
  | panicked
  deriving DecidableEq

/-- The condition of github.go:100 for one listed comment,
`*c.User.ID == *myself.ID && *c.ID != *newComment.ID`, with its dereferences: the outer
`none` is the panic on a `nil` pointer (`c`, `c.User`, `c.User.ID`, `myself.ID`, and,
when the author is the caller, `c.ID` and `newComment.ID`); `some (some id)` is a true
condition for the comment with id `id`, and `some none` a false one. -/
def staleID (myself : User) (newComment : IssueComment) (c : Option IssueComment) :
    Option (Option Int) :=
  match c with
  | none => none
  | some c =>
    match c.User with
    | none => none
    | some user =>
      match user.ID, myself.ID with
      | some authorID, some myID =>
        if authorID = myID then
          match c.ID, newComment.ID with
          | some commentID, some newID => if commentID ≠ newID then some (some commentID) else some none
          | _, _ => none
        else some none
      | _, _ => none

/-- The loop of github.go:99-103: a `DeleteComment` call for every listed comment of the
caller other than the new one; the result of the call is assigned and never read. The
boolean tells whether the loop ran to its end (`true`) or panicked (`false`). -/
def deleteOtherComments {W : Type} (client : Client W) (org repo : GoString)
    (myself : User) (newComment : IssueComment) : List (Option IssueComment) → W → Bool × W
  | [], w => (true, w)
  | c :: rest, w =>
    match staleID myself newComment c with
    | none => (false, w)
    | some none => deleteOtherComments client org repo myself newComment rest w
    | some (some id) =>
      deleteOtherComments client org repo myself newComment rest
        (client.IssuesDeleteComment org repo id w).2

/-- `ReportOnIssue` (github.go:39-106). `githubClient` builds the client from the token;
the result is how the call ends and the world after the calls. -/
def ReportOnIssue {W : Type} (githubClient : GoString → Client W) (e : GoError)
    (logs token org repo : GoString) (issue : Int) (w : W) : Exit × W :=
  let client := githubClient token
  -- filter out token, if it happens to be in the log
  let logs := stringsReplaceAll logs token redaction
  -- who am I?
  let (me, w) := client.UsersGet [] w
  match me.err with
  | some err => (.returned (some (.getOwnUser err)), w)
  | none =>
  if me.resp.StatusCode ≠ 200 then (.returned (some (.getOwnUserCode me.resp.StatusCode)), w) else
  let myself := me.value
  let body := commentBody e logs
  let (created, w) := client.IssuesCreateComment org repo issue body w
  match created.err with
  | some err => (.returned (some (.comment issue err)), w)
  | none =>
  if created.resp.StatusCode ≥ 300 then
    (.returned (some (.commentCode issue created.resp.StatusCode)), w) else
  let newComment := created.value
  -- re-open issue in case it was closed
  let (edited, w) := client.IssuesEdit org repo issue (ascii "open") w
  match edited.err with
  | some err => (.returned (some (.reopen issue err)), w)
  | none =>
  if edited.resp.StatusCode ≥ 300 then
    (.returned (some (.reopenCode issue edited.resp.StatusCode)), w) else
  -- delete all other comments from this user
  let (listed, w) := client.IssuesListComments org repo issue w
  match listed.err with
  | some err => (.returned (some (.listComments issue err)), w)
  | none =>
  if listed.resp.StatusCode ≠ 200 then
    (.returned (some (.listCommentsCode issue listed.resp.StatusCode)), w) else
  match deleteOtherComments client org repo myself newComment listed.value w with
  | (true, w) => (.returned none, w)
  | (false, w) => (.panicked, w)

/-! ### A client that answers from a script and records the calls -/

/-- A call of the GitHub API with its arguments. -/
inductive ApiCall where
  | UsersGet (user : GoString)
  | CreateComment (org repo : GoString) (issue : Int) (body : GoString)
  | Edit (org repo : GoString) (issue : Int) (state : GoString)
  | ListComments (org repo : GoString) (issue : Int)
  | DeleteComment (org repo : GoString) (id : Int)
  deriving DecidableEq

/-- Answers of the remote side during one run. The first four calls happen at most once
in a run, so one answer each describes any remote; the answer to a `DeleteComment` may
depend on all calls made before it. -/
structure Script where
  usersGet : ApiResult User
  createComment : ApiResult IssueComment
  edit : ApiResult Unit
  listComments : ApiResult (List (Option IssueComment))
  deleteComment : List ApiCall → Int → ApiResult Unit

/-- The client that answers from the script; its world is the list of calls made so far. -/
def scriptedClient (s : Script) : Client (List ApiCall) where
  UsersGet user t := (s.usersGet, t ++ [.UsersGet user])
  IssuesCreateComment org repo issue body t :=
    (s.createComment, t ++ [.CreateComment org repo issue body])
  IssuesEdit org repo issue state t := (s.edit, t ++ [.Edit org repo issue state])
  IssuesListComments org repo issue t := (s.listComments, t ++ [.ListComments org repo issue])
  IssuesDeleteComment org repo id t := (s.deleteComment t id, t ++ [.DeleteComment org repo id])

/-- An API call failed in the sense of a write (create, edit): transport error, or
status 300 and above. -/
def writeFailed {α : Type} (r : ApiResult α) : Prop := r.err ≠ none ∨ r.resp.StatusCode ≥ 300

/-- An API call failed in the sense of a read (identity, listing): transport error, or a
status other than 200. -/
def readFailed {α : Type} (r : ApiResult α) : Prop := r.err ≠ none ∨ r.resp.StatusCode ≠ 200

/-- The author id of a listed comment, when the comment, its author and the id of the
author are all there. -/
def authorID (c : Option IssueComment) : Option Int :=
  c.bind (fun c => c.User.bind (fun u => u.ID))

/-- The id of a listed comment, when the comment and its id are there. -/
def commentID (c : Option IssueComment) : Option Int :=
  c.bind (fun c => c.ID)

/-- Every pointer that github.go:100 dereferences for the listed comment `c` is there:
the comment has an author id, the caller has an id, and when the two ids are equal the
comment and the new comment have ids. -/
def Dereferenceable (myself : User) (newComment : IssueComment) (c : Option IssueComment) :
    Prop :=
  authorID c ≠ none ∧ myself.ID ≠ none ∧
    (authorID c = myself.ID → commentID c ≠ none ∧ newComment.ID ≠ none)

/-- The four calls that precede the cleanup, in the order of the source. -/
def leadingCalls (org repo : GoString) (issue : Int) (body : GoString) : List ApiCall :=
  [.UsersGet [], .CreateComment org repo issue body, .Edit org repo issue (ascii "open"),
    .ListComments org repo issue]

/-- A run of `ReportOnIssue` against a script, starting with no call made. -/
def scriptedRun (s : Script) (e : GoError) (logs token org repo : GoString) (issue : Int) :
    Exit × List ApiCall :=
  ReportOnIssue (fun _ => scriptedClient s) e logs token org repo issue []

/-- A listed comment with id `id` written by the user with id `author`. -/
def listedComment (id author : Int) : Option IssueComment :=
  some { ID := some id, User := some { ID := some author }, Body := [] }

/-- A sample script: the caller has id 7, the new comment gets id 10, the listing shows
two older comments of the caller, one of somebody else and the new comment, and every
deletion fails. -/
def sampleScript : Script where
  usersGet := ⟨⟨some 7⟩, ⟨200⟩, none⟩
  createComment := ⟨⟨some 10, some ⟨some 7⟩, []⟩, ⟨201⟩, none⟩
  edit := ⟨(), ⟨200⟩, none⟩
  listComments :=
    ⟨[listedComment 1 7, listedComment 2 8, listedComment 10 7, listedComment 3 7], ⟨200⟩, none⟩
  deleteComment _ _ := ⟨(), ⟨500⟩, some (ascii "server error")⟩

/-- A script in which every call succeeds and the listing shows an older comment of the
caller (id 1), a comment whose user is null (id 2), and another older comment of the
caller (id 3). -/
def nullUserScript : Script where
  usersGet := ⟨⟨some 7⟩, ⟨200⟩, none⟩
  createComment := ⟨⟨some 10, some ⟨some 7⟩, []⟩, ⟨201⟩, none⟩
  edit := ⟨(), ⟨200⟩, none⟩
  listComments :=
    ⟨[listedComment 1 7, some { ID := some 2, User := none, Body := [] }, listedComment 3 7],
      ⟨200⟩, none⟩
  deleteComment _ _ := ⟨(), ⟨204⟩, none⟩

/-! ### A remote issue -/

/-- How the remote side treats one call: it carries it out, or it fails with a transport
error, or it fails with HTTP status `300 + n`. A failed call changes nothing. -/
inductive Outcome where
  | ok
  | transportError (msg : GoString)
  | httpError (n : Nat)

/-- A user of the service, with its id. -/
structure Account where
  ID : Int
  deriving DecidableEq

/-- A comment as the service stores it: every stored comment has an id and an author. -/
structure StoredComment where
  ID : Int
  User : Account
  Body : GoString
  deriving DecidableEq

/-- A user as the client decodes it. -/
def Account.decoded (a : Account) : User := { ID := some a.ID }

/-- A stored comment as the client decodes it. -/
def StoredComment.decoded (c : StoredComment) : IssueComment :=
  { ID := some c.ID, User := some c.User.decoded, Body := c.Body }

/-- The remote issue and its service: the state of the issue ("open" or "closed"), its
comments in creation order, the identity the token belongs to, the number of comments a
listing returns at most, the way the service treats its calls (by call number), and the
number of calls received. -/
structure Remote where
  state : GoString
  comments : List StoredComment
  self : Account
  perPage : Nat
  outcomes : Nat → Outcome
  calls : Nat

/-- An id larger than every id in use. -/
def freshID (comments : List StoredComment) : Int :=
  (comments.map (fun c => c.ID)).foldr max 0 + 1

/-- The answer of the remote side to a call whose effect and value are given. -/
def Remote.answer {α : Type} (r : Remote) (status : Int) (value failed : α)
    (effect : Remote → Remote) : ApiResult α × Remote :=
  let r1 := { r with calls := r.calls + 1 }
  match r.outcomes r.calls with
  | .ok => ({ value := value, resp := ⟨status⟩, err := none }, effect r1)
  | .transportError msg => ({ value := failed, resp := ⟨0⟩, err := some msg }, r1)
  | .httpError n => ({ value := failed, resp := ⟨300 + n⟩, err := none }, r1)

/-- The comment the service creates for `body`: a fresh id and the caller as author. -/
def Remote.newComment (r : Remote) (body : GoString) : StoredComment :=
  { ID := freshID r.comments, User := r.self, Body := body }

/-- The issue service as a client: identity lookup, comment creation (the new comment
gets a fresh id and the caller as author), state edit, listing (at most `perPage`
comments, oldest first), and deletion by id. -/
def remoteClient : Client Remote where
  UsersGet _ r := r.answer 200 r.self.decoded ⟨none⟩ id
  IssuesCreateComment _ _ _ body r :=
    r.answer 201 (r.newComment body).decoded ⟨none, none, []⟩
      (fun r1 => { r1 with comments := r1.comments ++ [r.newComment body] })
  IssuesEdit _ _ _ state r := r.answer 200 () () (fun r => { r with state := state })
  IssuesListComments _ _ _ r :=
    r.answer 200 ((r.comments.take r.perPage).map (fun c => some c.decoded)) [] id
  IssuesDeleteComment _ _ i r :=
    r.answer 204 () () (fun r => { r with comments := r.comments.filter (fun c => c.ID ≠ i) })

/-- The comments of the issue written by its caller. -/
def Remote.ownComments (r : Remote) : List StoredComment :=
  r.comments.filter (fun c => c.User.ID = r.self.ID)

/-- A run of `ReportOnIssue` against the remote issue `r`. -/
def remoteRun (r : Remote) (e : GoError) (logs token org repo : GoString) (issue : Int) :
    Exit × Remote :=
  ReportOnIssue (fun _ => remoteClient) e logs token org repo issue r

/-- A closed issue with one older comment (id 1) of the caller (id 7); the fifth call it
receives, the deletion of that comment, fails with status 500. -/
def remoteDeleteFails : Remote where
  state := ascii "closed"
  comments := [⟨1, ⟨7⟩, ascii "old report"⟩]
  self := ⟨7⟩
  perPage := 30
  outcomes k := if k = 4 then .httpError 200 else .ok
  calls := 0

/-- An open issue with two older comments of the caller (id 7) whose listing returns one
comment only; every call succeeds. -/
def remoteShortPage : Remote where
  state := ascii "open"
  comments := [⟨1, ⟨7⟩, ascii "old report"⟩, ⟨2, ⟨7⟩, ascii "older report"⟩]
  self := ⟨7⟩
  perPage := 1
  outcomes _ := .ok
  calls := 0

/-- A closed issue with two older comments of the caller (id 7) and one of somebody
else; every call succeeds and a listing returns up to 30 comments. -/
def remoteHealthy : Remote where
  state := ascii "closed"
  comments := [⟨1, ⟨7⟩, ascii "old report"⟩, ⟨2, ⟨8⟩, ascii "thanks"⟩, ⟨5, ⟨7⟩, []⟩]
  self := ⟨7⟩
  perPage := 30
  outcomes _ := .ok
  calls := 0

/-! ## `updateGomodWithTaggedDependencies` -/

/-- Unix `filepath.Clean` on the elements of a path: empty and `.` elements vanish, a
`..` removes the element before it, is dropped at the root, and is kept at the start of
a relative path. `stack` holds the elements kept so far, last one first. -/
def cleanElems (rooted : Bool) : List GoString → List GoString → List GoString
  | stack, [] => stack.reverse
  | stack, el :: rest =>
    if el = [] ∨ el = ascii "." then cleanElems rooted stack rest
    else if el = ascii ".." then
      match stack with
      | top :: below =>
        if top = ascii ".." then cleanElems rooted (el :: stack) rest
        else cleanElems rooted below rest
      | [] => if rooted then cleanElems rooted [] rest else cleanElems rooted [el] rest
    else cleanElems rooted (el :: stack) rest

/-- Unix `filepath.Clean(path)`. -/
def filepathClean (path : GoString) : GoString :=
  let rooted := stringsHasPrefix path (ascii "/")
  let out := stringsJoin (cleanElems rooted [] (stringsSplit path (ascii "/"))) (ascii "/")
  if rooted then ascii "/" ++ out else if out = [] then ascii "." else out

/-- Unix `filepath.Join(elem...)`: the non-empty elements joined by a slash and cleaned;
the empty string when there is none. -/
def filepathJoin (elem : List GoString) : GoString :=
  match elem.filter (fun e => decide (e ≠ [])) with
  | [] => []
  | es => filepathClean (stringsJoin es (ascii "/"))

/-- What `os.Stat` says about a name, as far as the source tells apart: the file is
there, `os.IsNotExist(err)`, or another error. -/
inductive StatResult where
  | found
  | notExist
  | failed (err : GoString)

/-- The surroundings of one run of `updateGomodWithTaggedDependencies`, with `R` the type
of an opened repository. `fullPackageName` and `localOrPublishedTaggedCommitHash` are
functions of the repository outside the available source and are taken as given. Each
answer inside the loop may depend on the number of the iteration that asks (counted from
0) besides the arguments, which lets an answer depend on everything that happened before. -/
structure Env (R : Type) where
  osStat : GoString → StatResult
  PlainOpen : Nat → GoString → Except GoString R
  fullPackageName : Nat → GoString → Except GoString GoString
  localOrPublishedTaggedCommitHash : Nat → R → GoString → Except GoString GoString
  Run : Nat → List GoString → GoError

/-- What the function does outside the process, in order: file-system, git and
subprocess calls (a subprocess with its argument vector, all run with `GO111MODULE=on`
added to the environment) and the lines printed. -/
inductive Event (R : Type) where
  | Stat (name : GoString)
  | PlainOpen (path : GoString)
  | fullPackageName (path : GoString)
  | localOrPublishedTaggedCommitHash (r : R) (tag : GoString)
  | Run (argv : List GoString)
  | Printf (text : GoString)
  deriving DecidableEq

/-- The errors of `updateGomodWithTaggedDependencies`, one constructor per returned
error of the source. -/
inductive PinError where
  /-- The error of `os.Stat`, returned as it is. -/
  | stat (err : GoString)
  /-- Text "failed to open dependency repo at %q: %v". -/
  | openRepo (depPath err : GoString)
  /-- Text "failed to get package at %s: %v". -/
  | packageName (depPath err : GoString)
  /-- Text "failed to get tag %s for %q: %v". -/
  | tagResolution (tag depPkg err : GoString)
  /-- Text "Unable to pin %s in the require section of go.mod to %s: %v". -/
  | pinRequire (depPkg commit err : GoString)
  /-- Text "Unable to pin %s in the replace section of go.mod to %s: %v". -/
  | pinReplace (depPkg commit err : GoString)
  /-- Text "Unable to run go mod tidy for %s at %s: %v". -/
  | tidy (depPkg commit err : GoString)
  deriving DecidableEq

/-- Argument vector of `go mod edit -fmt -require depPkg@commit`. -/
def requireArgv (depPkg commit : GoString) : List GoString :=
  [ascii "go", ascii "mod", ascii "edit", ascii "-fmt", ascii "-require",
    depPkg ++ ascii "@" ++ commit]

/-- Argument vector of `go mod edit -fmt -replace depPkg=depPkg@commit`. -/
def replaceArgv (depPkg commit : GoString) : List GoString :=
  [ascii "go", ascii "mod", ascii "edit", ascii "-fmt", ascii "-replace",
    depPkg ++ ascii "=" ++ depPkg ++ ascii "@" ++ commit]

/-- Argument vector of `go mod tidy`. -/
def tidyArgv : List GoString := [ascii "go", ascii "mod", ascii "tidy"]

/-- The line printed after a pin: "Bumping %s in go.mod to %s\n.". -/
def bumpingLine (depPkg commit : GoString) : GoString :=
  ascii "Bumping " ++ depPkg ++ ascii " in go.mod to " ++ commit ++ ascii "\n."

/-- The line printed for a dependency missing in `found`:
"Warning: dependency %s not found in go.mod.\n". -/
def warningLine (dep : GoString) : GoString :=
  ascii "Warning: dependency " ++ dep ++ ascii " not found in go.mod.\n"

/-- How the first loop ends: with a `return` inside it, or by running out of
dependencies with the final `found` and `changed`. -/
inductive LoopEnd where
  | returned (changed : Bool) (err : PinError)
  | finished (found : List GoString) (changed : Bool)

/-- The first loop (gomod.go:41-79) from iteration `i` on, over the dependencies still
to be handled; `found` lists the keys set in the map and `changed` is the variable of
that name. The result is how the loop ends and what it did outside the process. -/
def pinLoop {R : Type} (env : Env R) (tag : GoString) :
    Nat → List GoString → List GoString → Bool → LoopEnd × List (Event R)
  | _, [], found, changed => (.finished found changed, [])
  | i, dep :: rest, found, changed =>
    let depPath := filepathJoin [ascii "..", dep]
    match env.PlainOpen i depPath with
    | .error err => (.returned false (.openRepo depPath err), [.PlainOpen depPath])
    | .ok dr =>
    match env.fullPackageName i depPath with
    | .error err =>
      (.returned changed (.packageName depPath err), [.PlainOpen depPath, .fullPackageName depPath])
    | .ok depPkg =>
    let looked : List (Event R) :=
      [.PlainOpen depPath, .fullPackageName depPath, .localOrPublishedTaggedCommitHash dr tag]
    match env.localOrPublishedTaggedCommitHash i dr tag with
    | .error err => (.returned false (.tagResolution tag depPkg err), looked)
    | .ok commit =>
    match env.Run i (requireArgv depPkg commit) with
    | some err =>
      (.returned changed (.pinRequire depPkg commit err), looked ++ [.Run (requireArgv depPkg commit)])
    | none =>
    match env.Run i (replaceArgv depPkg commit) with
    | some err =>
      (.returned changed (.pinReplace depPkg commit err),
        looked ++ [.Run (requireArgv depPkg commit), .Run (replaceArgv depPkg commit)])
    | none =>
    let ran : List (Event R) :=
      looked ++ [.Run (requireArgv depPkg commit), .Run (replaceArgv depPkg commit), .Run tidyArgv]
    match env.Run i tidyArgv with
    | some err => (.returned changed (.tidy depPkg commit err), ran)
    | none =>
    let (r, events) := pinLoop env tag (i + 1) rest (depPkg :: found) true
    (r, ran ++ .Printf (bumpingLine depPkg commit) :: events)

/-- The second loop (gomod.go:81-85): a warning for every dependency that is no key of
`found`. -/
def warnings {R : Type} (found depsRepo : List GoString) : List (Event R) :=
  (depsRepo.filter (fun dep => !found.contains dep)).map (fun dep => .Printf (warningLine dep))

/-- `updateGomodWithTaggedDependencies` (gomod.go:30-87): the returned pair and what the
call did outside the process. -/
def updateGomodWithTaggedDependencies {R : Type} (env : Env R) (tag : GoString)
    (depsRepo : List GoString) : (Bool × Option PinError) × List (Event R) :=
  match env.osStat (ascii "go.mod") with
  | .notExist => ((false, none), [.Stat (ascii "go.mod")])
  | .failed err => ((false, some (.stat err)), [.Stat (ascii "go.mod")])
  | .found =>
    match pinLoop env tag 0 depsRepo [] false with
    | (.returned changed err, events) => ((changed, some err), .Stat (ascii "go.mod") :: events)
    | (.finished found changed, events) =>
      ((changed, none), .Stat (ascii "go.mod") :: events ++ warnings found depsRepo)

/-- The subprocesses among the events, in order. -/
def commands {R : Type} (events : List (Event R)) : List (List GoString) :=
  events.filterMap (fun ev => match ev with
    | .Run argv => some argv
    | _ => none)

/-- The texts printed among the events, in order. -/
def printed {R : Type} (events : List (Event R)) : List GoString :=
  events.filterMap (fun ev => match ev with
    | .Printf text => some text
    | _ => none)

/-- Everything iteration `i` does for dependency `dep` succeeds: the checkout opens as
`dr`, its module path is `depPkg`, the tag resolves to `commit`, and the three
subprocesses exit without error. -/
def pinSucceeds {R : Type} (env : Env R) (tag : GoString) (i : Nat) (dep : GoString)
    (dr : R) (depPkg commit : GoString) : Prop :=
  env.PlainOpen i (filepathJoin [ascii "..", dep]) = .ok dr ∧
  env.fullPackageName i (filepathJoin [ascii "..", dep]) = .ok depPkg ∧
  env.localOrPublishedTaggedCommitHash i dr tag = .ok commit ∧
  env.Run i (requireArgv depPkg commit) = none ∧
  env.Run i (replaceArgv depPkg commit) = none ∧
  env.Run i tidyArgv = none

/-- The three subprocesses that pin `depPkg` to `commit`. -/
def pinCommands (depPkg commit : GoString) : List (List GoString) :=
  [requireArgv depPkg commit, replaceArgv depPkg commit, tidyArgv]

/-- Sample surroundings: go.mod exists, the checkout `../d` holds module `k8s.io/d`, every
subprocess succeeds, and tag resolution yields `abc` except in the iterations listed in
`failing`, where neither a local nor a published commit is found. -/
def sampleEnv (failing : List Nat) : Env Nat where
  osStat _ := .found
  PlainOpen i _ := .ok i
  fullPackageName _ p := .ok (ascii "k8s.io/" ++ p.drop 3)
  localOrPublishedTaggedCommitHash i _ _ :=
    if i ∈ failing then .error (ascii "tag not found") else .ok (ascii "abc")
  Run _ _ := none

/-- Sample surroundings without a go.mod; every other call would fail. -/
def noGomodEnv : Env Nat where
  osStat _ := .notExist
  PlainOpen _ _ := .error []
  fullPackageName _ _ := .error []
  localOrPublishedTaggedCommitHash _ _ _ := .error []
  Run _ _ := some []

/-- Sample surroundings that answer only what the pinning of `api` and `client` at tag
`v1.0.0` asks for: go.mod exists, `../api` and `../client` open and hold the modules
`k8s.io/api` and `k8s.io/client`, the tag resolves to `abc` and `def`, and a subprocess
succeeds only when it is one of the six expected ones; everything else fails. -/
def pinnedEnv : Env Nat where
  osStat name := if name = ascii "go.mod" then .found else .notExist
  PlainOpen i p :=
    if i = 0 ∧ p = ascii "../api" then .ok 100
    else if i = 1 ∧ p = ascii "../client" then .ok 101
    else .error (ascii "repository does not exist")
  fullPackageName i p :=
    if i = 0 ∧ p = ascii "../api" then .ok (ascii "k8s.io/api")
    else if i = 1 ∧ p = ascii "../client" then .ok (ascii "k8s.io/client")
    else .error (ascii "no package")
  localOrPublishedTaggedCommitHash i dr tag :=
    if i = 0 ∧ dr = 100 ∧ tag = ascii "v1.0.0" then .ok (ascii "abc")
    else if i = 1 ∧ dr = 101 ∧ tag = ascii "v1.0.0" then .ok (ascii "def")
    else .error (ascii "tag not found")
  Run i argv :=
    if (i = 0 ∧
        (argv = [ascii "go", ascii "mod", ascii "edit", ascii "-fmt", ascii "-require",
            ascii "k8s.io/api@abc"] ∨
          argv = [ascii "go", ascii "mod", ascii "edit", ascii "-fmt", ascii "-replace",
            ascii "k8s.io/api=k8s.io/api@abc"] ∨
          argv = [ascii "go", ascii "mod", ascii "tidy"])) ∨
      (i = 1 ∧
        (argv = [ascii "go", ascii "mod", ascii "edit", ascii "-fmt", ascii "-require",
            ascii "k8s.io/client@def"] ∨
          argv = [ascii "go", ascii "mod", ascii "edit", ascii "-fmt", ascii "-replace",
            ascii "k8s.io/client=k8s.io/client@def"] ∨
          argv = [ascii "go", ascii "mod", ascii "tidy"]))
    then none
    else some (ascii "exit status 1")

/-! ## Properties of `updateGomodWithTaggedDependencies` -/

/-- The loop when every iteration succeeds: it finishes, `found` gains the module paths,
`changed` is set when there was an iteration, and the subprocesses are the three pin
commands of each dependency in order. -/
theorem pinLoop_of_pinSucceeds {R : Type} (env : Env R) (tag : GoString)
    (repos : Nat → R) (pkgs commits : Nat → GoString) :
    ∀ (deps : List GoString) (i : Nat) (found : List GoString) (changed : Bool),
      (∀ j d, deps[j]? = some d →
        pinSucceeds env tag (i + j) d (repos (i + j)) (pkgs (i + j)) (commits (i + j))) →
      (pinLoop env tag i deps found changed).1 =
          .finished (((List.range deps.length).map (fun j => pkgs (i + j))).reverse ++ found)
            (changed || decide (0 < deps.length)) ∧
        commands (pinLoop env tag i deps found changed).2 =
          (List.range deps.length).flatMap
            (fun j => pinCommands (pkgs (i + j)) (commits (i + j))) ∧
        printed (pinLoop env tag i deps found changed).2 =
          (List.range deps.length).map (fun j => bumpingLine (pkgs (i + j)) (commits (i + j)))
  | [], i, found, changed, _ => by simp [pinLoop, commands, printed]
  | dep :: rest, i, found, changed, h => by
    obtain ⟨h1, h2, h3, h4, h5, h6⟩ := h 0 dep (by simp)
    simp only [Nat.add_zero] at h1 h2 h3 h4 h5 h6
    have ih := pinLoop_of_pinSucceeds env tag repos pkgs commits rest (i + 1)
      (pkgs i :: found) true (fun j d hj => by
        have := h (j + 1) d (by simpa using hj)
        rwa [show i + (j + 1) = i + 1 + j by omega] at this)
    obtain ⟨ih1, ih2, ih3⟩ := ih
    have hshift : ∀ j, i + 1 + j = i + (j + 1) := fun j => by omega
    simp only [pinLoop, h1, h2, h3, h4, h5, h6]
    refine ⟨?_, ?_, ?_⟩
    · rw [ih1]
      simp [List.range_succ_eq_map, List.map_map, Function.comp_def, hshift]
    · simp only [commands] at ih2 ⊢
      simp [List.filterMap_append, ih2, List.range_succ_eq_map, List.flatMap_map, pinCommands,
        hshift]
    · simp only [printed] at ih3 ⊢
      simp [List.filterMap_append, ih3, List.range_succ_eq_map, List.map_map,
        Function.comp_def, hshift]

/-- C4. Without a go.mod file the function returns `(false, nil)` whatever the tag and
the dependency list, and the `os.Stat` of go.mod is all it does outside the process: no
repository is opened, no tag resolved, no subprocess run. -/
theorem updateGomod_without_gomod {R : Type} (env : Env R) (tag : GoString)
    (depsRepo : List GoString) (hstat : env.osStat (ascii "go.mod") = .notExist) :
    updateGomodWithTaggedDependencies env tag depsRepo
      = ((false, none), [.Stat (ascii "go.mod")]) := by
  simp [updateGomodWithTaggedDependencies, hstat]

/-- Witness of C4: a non-empty dependency list without go.mod. -/
theorem updateGomod_without_gomod_witness :
    updateGomodWithTaggedDependencies noGomodEnv (ascii "v1.0.0") [ascii "api", ascii "client"]
      = ((false, none), [.Stat (ascii "go.mod")]) :=
  updateGomod_without_gomod noGomodEnv (ascii "v1.0.0") [ascii "api", ascii "client"] rfl

/-- C5. With go.mod present and every step of every iteration succeeding, the
subprocesses run are exactly, for each dependency in the order of the list,
`go mod edit -fmt -require pkg@commit`, `go mod edit -fmt -replace pkg=pkg@commit` and
`go mod tidy`, with the module path of `../d_i` and the commit resolved in that
checkout; the call returns `nil` and `changed` is true as soon as the list is not
empty. -/
theorem updateGomod_commands {R : Type} (env : Env R) (tag : GoString)
    (depsRepo : List GoString) (repos : Nat → R) (pkgs commits : Nat → GoString)
    (hstat : env.osStat (ascii "go.mod") = .found)
    (hall : ∀ i d, depsRepo[i]? = some d →
      env.PlainOpen i (filepathJoin [ascii "..", d]) = .ok (repos i) ∧
      env.fullPackageName i (filepathJoin [ascii "..", d]) = .ok (pkgs i) ∧
      env.localOrPublishedTaggedCommitHash i (repos i) tag = .ok (commits i) ∧
      env.Run i [ascii "go", ascii "mod", ascii "edit", ascii "-fmt", ascii "-require",
        pkgs i ++ ascii "@" ++ commits i] = none ∧
      env.Run i [ascii "go", ascii "mod", ascii "edit", ascii "-fmt", ascii "-replace",
        pkgs i ++ ascii "=" ++ pkgs i ++ ascii "@" ++ commits i] = none ∧
      env.Run i [ascii "go", ascii "mod", ascii "tidy"] = none) :
    commands (updateGomodWithTaggedDependencies env tag depsRepo).2 =
        (List.range depsRepo.length).flatMap
          (fun i =>
            [[ascii "go", ascii "mod", ascii "edit", ascii "-fmt", ascii "-require",
                pkgs i ++ ascii "@" ++ commits i],
              [ascii "go", ascii "mod", ascii "edit", ascii "-fmt", ascii "-replace",
                pkgs i ++ ascii "=" ++ pkgs i ++ ascii "@" ++ commits i],
              [ascii "go", ascii "mod", ascii "tidy"]]) ∧
      (updateGomodWithTaggedDependencies env tag depsRepo).1 =
        (decide (1 ≤ depsRepo.length), none) := by
  obtain ⟨h1, h2, _⟩ := pinLoop_of_pinSucceeds env tag repos pkgs commits depsRepo 0 [] false
    (fun j d hj => by
      rw [Nat.zero_add]
      exact hall j d hj)
  have hw : ∀ found, commands (warnings found depsRepo : List (Event R)) = [] := by
    intro found
    simp [commands, warnings, List.filterMap_map, Function.comp_def]
  rcases hloop : pinLoop env tag 0 depsRepo [] false with ⟨r, events⟩
  rw [hloop] at h1 h2
  simp only at h1 h2
  subst h1
  simp only [updateGomodWithTaggedDependencies, hstat, hloop]
  refine ⟨?_, by simp [Nat.succ_le_iff]⟩
  have hsplit : ∀ found, commands (Event.Stat (ascii "go.mod") :: events ++ warnings found depsRepo)
      = commands events ++ commands (warnings found depsRepo : List (Event R)) := by
    intro found
    simp [commands, List.filterMap_append]
  rw [hsplit, hw, h2]
  simp [pinCommands, requireArgv, replaceArgv, tidyArgv]

/-- Witness of C5: the dependencies `api` and `client`, in surroundings that accept
nothing but the expected paths and command lines. -/
theorem updateGomod_commands_witness :
    commands (updateGomodWithTaggedDependencies pinnedEnv (ascii "v1.0.0")
        [ascii "api", ascii "client"]).2 =
        [[ascii "go", ascii "mod", ascii "edit", ascii "-fmt", ascii "-require",
            ascii "k8s.io/api@abc"],
          [ascii "go", ascii "mod", ascii "edit", ascii "-fmt", ascii "-replace",
            ascii "k8s.io/api=k8s.io/api@abc"],
          [ascii "go", ascii "mod", ascii "tidy"],
          [ascii "go", ascii "mod", ascii "edit", ascii "-fmt", ascii "-require",
            ascii "k8s.io/client@def"],
          [ascii "go", ascii "mod", ascii "edit", ascii "-fmt", ascii "-replace",
            ascii "k8s.io/client=k8s.io/client@def"],
          [ascii "go", ascii "mod", ascii "tidy"]] ∧
      (updateGomodWithTaggedDependencies pinnedEnv (ascii "v1.0.0")
        [ascii "api", ascii "client"]).1 = (true, none) :=
  updateGomod_commands pinnedEnv (ascii "v1.0.0") [ascii "api", ascii "client"]
    (fun i => 100 + i) (fun i => [ascii "k8s.io/api", ascii "k8s.io/client"].getD i [])
    (fun i => [ascii "abc", ascii "def"].getD i []) rfl
    (fun i d h => by
      match i, h with
      | 0, h =>
        obtain rfl : ascii "api" = d := by simpa using h
        exact ⟨rfl, rfl, rfl, rfl, rfl, rfl⟩
      | 1, h =>
        obtain rfl : ascii "client" = d := by simpa using h
        exact ⟨rfl, rfl, rfl, rfl, rfl, rfl⟩
      | n + 2, h => simp at h)

/-- C3, the code at the failing input: the first dependency is pinned (its three
subprocesses ran), tag resolution fails for the second, and the function returns the
tag-resolution error with `false`, not with the `changed` of the earlier iteration. -/
theorem updateGomod_tag_failure_returns_false :
    (updateGomodWithTaggedDependencies (sampleEnv [1]) (ascii "v1.0.0")
        [ascii "api", ascii "client"]).1 =
        (false, some (.tagResolution (ascii "v1.0.0") (ascii "k8s.io/client")
          (ascii "tag not found"))) ∧
      commands (updateGomodWithTaggedDependencies (sampleEnv [1]) (ascii "v1.0.0")
        [ascii "api", ascii "client"]).2 =
        [requireArgv (ascii "k8s.io/api") (ascii "abc"),
          replaceArgv (ascii "k8s.io/api") (ascii "abc"), tidyArgv] := by
  decide

/-- C10, the code at the failing input: the dependency in directory `api` is pinned as
module `k8s.io/api` without error, and the warning is printed for it all the same,
because `found` is keyed by the module path and looked up by the directory name. -/
theorem updateGomod_warns_for_pinned_dependency :
    (updateGomodWithTaggedDependencies (sampleEnv []) (ascii "v1.0.0") [ascii "api"]).1 =
        (true, none) ∧
      printed (updateGomodWithTaggedDependencies (sampleEnv []) (ascii "v1.0.0")
        [ascii "api"]).2 =
        [bumpingLine (ascii "k8s.io/api") (ascii "abc"), warningLine (ascii "api")] := by
  decide

/-! ## Properties of `ReportOnIssue`: the calls -/

/-- The condition of github.go:100 when every pointer it dereferences is there: it holds
for the comments of the caller other than the new one. -/
theorem staleID_of_dereferenceable (myself : User) (newComment : IssueComment)
    (c : Option IssueComment) (h : Dereferenceable myself newComment c) :
    staleID myself newComment c =
      some (if authorID c = myself.ID ∧ commentID c ≠ newComment.ID then commentID c
        else none) := by
  obtain ⟨h1, h2, h3⟩ := h
  rcases c with _ | ⟨cid, cu, body⟩
  · exact absurd rfl h1
  rcases cu with _ | ⟨uid⟩
  · exact absurd rfl h1
  rcases uid with _ | uid
  · exact absurd rfl h1
  rcases hm : myself.ID with _ | myID
  · exact absurd hm h2
  rw [hm] at h3
  by_cases heq : uid = myID
  · subst heq
    obtain ⟨h4, h5⟩ := h3 rfl
    rcases cid with _ | cid
    · exact absurd rfl h4
    rcases hn : newComment.ID with _ | newID
    · exact absurd hn h5
    by_cases hne : cid = newID
    · simp [staleID, authorID, commentID, hm, hn, hne]
    · simp [staleID, authorID, commentID, hm, hn, hne]
  · simp [staleID, authorID, commentID, hm, heq]

/-- The condition of github.go:100 panics exactly when a pointer it dereferences is
`nil`. -/
theorem staleID_eq_none_iff (myself : User) (newComment : IssueComment)
    (c : Option IssueComment) :
    staleID myself newComment c = none ↔ ¬ Dereferenceable myself newComment c := by
  constructor
  · intro h hd
    rw [staleID_of_dereferenceable myself newComment c hd] at h
    exact absurd h (by simp)
  · intro h
    rcases c with _ | ⟨cid, cu, body⟩
    · rfl
    rcases cu with _ | ⟨uid⟩
    · rfl
    rcases uid with _ | uid
    · rfl
    rcases hm : myself.ID with _ | myID
    · simp [staleID, hm]
    by_cases heq : uid = myID
    · subst heq
      rcases cid with _ | cid
      · simp [staleID, hm]
      rcases hn : newComment.ID with _ | newID
      · simp [staleID, hm, hn]
      · exact absurd (by simp [Dereferenceable, authorID, commentID, hm, hn]) h
    · exact absurd (by simp [Dereferenceable, authorID, commentID, hm, heq]) h

/-- The cleanup against a script only appends `DeleteComment` calls, however it ends. -/
theorem deleteOtherComments_scripted_calls (s : Script) (org repo : GoString) (myself : User)
    (newComment : IssueComment) :
    ∀ (comments : List (Option IssueComment)) (t : List ApiCall),
      ∃ ids : List Int,
        (deleteOtherComments (scriptedClient s) org repo myself newComment comments t).2 =
          t ++ ids.map (fun i => ApiCall.DeleteComment org repo i)
  | [], t => ⟨[], by simp [deleteOtherComments]⟩
  | c :: rest, t => by
    unfold deleteOtherComments
    rcases hst : staleID myself newComment c with _ | _ | id
    · exact ⟨[], by simp⟩
    · simp only
      exact deleteOtherComments_scripted_calls s org repo myself newComment rest t
    · simp only
      obtain ⟨ids, hids⟩ := deleteOtherComments_scripted_calls s org repo myself newComment rest
        ((scriptedClient s).IssuesDeleteComment org repo id t).2
      exact ⟨id :: ids, by rw [hids]; simp [scriptedClient]⟩

/-- The cleanup against a script when every pointer is there: it runs to its end and
appends one `DeleteComment` per listed comment of the caller other than the new one, in
list order, whatever the deletions answer. -/
theorem deleteOtherComments_scripted (s : Script) (org repo : GoString) (myself : User)
    (newComment : IssueComment) :
    ∀ (comments : List (Option IssueComment)) (t : List ApiCall),
      (∀ c ∈ comments, Dereferenceable myself newComment c) →
      deleteOtherComments (scriptedClient s) org repo myself newComment comments t =
        (true, t ++
          ((comments.filter
            (fun c => decide (authorID c = myself.ID ∧ commentID c ≠ newComment.ID))).filterMap
            commentID).map (fun i => ApiCall.DeleteComment org repo i))
  | [], t, _ => by simp [deleteOtherComments]
  | c :: rest, t, h => by
    have hc := h c (List.mem_cons_self _ _)
    have hrest : ∀ c ∈ rest, Dereferenceable myself newComment c :=
      fun x hx => h x (List.mem_cons_of_mem _ hx)
    unfold deleteOtherComments
    rw [staleID_of_dereferenceable myself newComment c hc]
    by_cases hsel : authorID c = myself.ID ∧ commentID c ≠ newComment.ID
    · obtain ⟨id, hid⟩ : ∃ id, commentID c = some id :=
        Option.ne_none_iff_exists'.mp (hc.2.2 hsel.1).1
      rw [if_pos hsel, hid]
      simp only
      rw [deleteOtherComments_scripted s org repo myself newComment rest _ hrest]
      have hne : ¬ (some id = newComment.ID) := hid ▸ hsel.2
      simp [List.filter_cons, hsel, hid, hne, scriptedClient, List.filterMap_cons]
    · rw [if_neg hsel]
      simp only
      rw [deleteOtherComments_scripted s org repo myself newComment rest _ hrest]
      simp [List.filter_cons, hsel]

/-- A run against a script in which no leading call fails: the four leading calls are
made and the run ends as the cleanup does. -/
theorem scriptedRun_of_leading (s : Script) (e : GoError) (logs token org repo : GoString)
    (issue : Int) (h1 : ¬ readFailed s.usersGet) (h2 : ¬ writeFailed s.createComment)
    (h3 : ¬ writeFailed s.edit) (h4 : ¬ readFailed s.listComments) :
    scriptedRun s e logs token org repo issue =
      (if (deleteOtherComments (scriptedClient s) org repo s.usersGet.value
            s.createComment.value s.listComments.value
            (leadingCalls org repo issue
              (commentBody e (stringsReplaceAll logs token redaction)))).1
        then Exit.returned none else Exit.panicked,
        (deleteOtherComments (scriptedClient s) org repo s.usersGet.value
          s.createComment.value s.listComments.value
          (leadingCalls org repo issue
            (commentBody e (stringsReplaceAll logs token redaction)))).2) := by
  simp only [readFailed, writeFailed, not_or, not_not, ne_eq, ge_iff_le, not_le] at h1 h2 h3 h4
  obtain ⟨e1, c1⟩ := h1
  obtain ⟨e2, c2⟩ := h2
  obtain ⟨e3, c3⟩ := h3
  obtain ⟨e4, c4⟩ := h4
  have c2' : ¬ (300 ≤ s.createComment.resp.StatusCode) := not_le.mpr c2
  have c3' : ¬ (300 ≤ s.edit.resp.StatusCode) := not_le.mpr c3
  simp only [scriptedRun, ReportOnIssue, scriptedClient, e1, e2, e3, e4, c1, c4, ne_eq,
    not_true_eq_false, if_false, ge_iff_le, c2', c3', List.nil_append, List.cons_append,
    leadingCalls]
  split <;> rename_i w hw <;> simp [hw]

/-- C6 as amended. Against any answers of the remote side the calls are made in the order
identity lookup, create comment, edit to "open", list comments, delete comments; a
failure of one of the first four (transport error; status other than 200 for the two
reads, 300 or above for the two writes) makes `ReportOnIssue` return an error with that
call as its last one; without such a failure only `DeleteComment` calls follow the
four, and `ReportOnIssue` returns `nil` when every pointer that the cleanup dereferences
in the listed comments, the identity and the new comment is there. -/
theorem reportOnIssue_call_order (s : Script) (e : GoError) (logs token org repo : GoString)
    (issue : Int) :
    (readFailed s.usersGet →
      (∃ err, (scriptedRun s e logs token org repo issue).1 = Exit.returned (some err)) ∧
      (scriptedRun s e logs token org repo issue).2 =
        (leadingCalls org repo issue
          (commentBody e (stringsReplaceAll logs token redaction))).take 1) ∧
    (¬ readFailed s.usersGet → writeFailed s.createComment →
      (∃ err, (scriptedRun s e logs token org repo issue).1 = Exit.returned (some err)) ∧
      (scriptedRun s e logs token org repo issue).2 =
        (leadingCalls org repo issue
          (commentBody e (stringsReplaceAll logs token redaction))).take 2) ∧
    (¬ readFailed s.usersGet → ¬ writeFailed s.createComment → writeFailed s.edit →
      (∃ err, (scriptedRun s e logs token org repo issue).1 = Exit.returned (some err)) ∧
      (scriptedRun s e logs token org repo issue).2 =
        (leadingCalls org repo issue
          (commentBody e (stringsReplaceAll logs token redaction))).take 3) ∧
    (¬ readFailed s.usersGet → ¬ writeFailed s.createComment → ¬ writeFailed s.edit →
      readFailed s.listComments →
      (∃ err, (scriptedRun s e logs token org repo issue).1 = Exit.returned (some err)) ∧
      (scriptedRun s e logs token org repo issue).2 =
        leadingCalls org repo issue
          (commentBody e (stringsReplaceAll logs token redaction))) ∧
    (¬ readFailed s.usersGet → ¬ writeFailed s.createComment → ¬ writeFailed s.edit →
      ¬ readFailed s.listComments →
      (∃ ids : List Int, (scriptedRun s e logs token org repo issue).2 =
        leadingCalls org repo issue (commentBody e (stringsReplaceAll logs token redaction))
          ++ ids.map (fun i => ApiCall.DeleteComment org repo i)) ∧
      ((∀ c ∈ s.listComments.value,
          Dereferenceable s.usersGet.value s.createComment.value c) →
        (scriptedRun s e logs token org repo issue).1 = Exit.returned none)) := by
  refine ⟨?_, ?_, ?_, ?_, ?_⟩
  · intro h1
    simp only [readFailed, ne_eq] at h1
    simp only [scriptedRun, ReportOnIssue, scriptedClient, leadingCalls]
    cases he : s.usersGet.err with
    | some err => simp
    | none =>
      have hc : s.usersGet.resp.StatusCode ≠ 200 := by
        rcases h1 with h | h
        · exact absurd he h
        · exact h
      simp [hc]
  · intro h1 h2
    simp only [readFailed, writeFailed, not_or, not_not, ne_eq, ge_iff_le] at h1 h2
    obtain ⟨e1, c1⟩ := h1
    simp only [scriptedRun, ReportOnIssue, scriptedClient, leadingCalls, e1, c1, ne_eq,
      not_true_eq_false, if_false]
    cases he : s.createComment.err with
    | some err => simp
    | none =>
      have hc : 300 ≤ s.createComment.resp.StatusCode := by
        rcases h2 with h | h
        · exact absurd he h
        · exact h
      simp [hc]
  · intro h1 h2 h3
    simp only [readFailed, writeFailed, not_or, not_not, ne_eq, ge_iff_le, not_le] at h1 h2 h3
    obtain ⟨e1, c1⟩ := h1
    obtain ⟨e2, c2⟩ := h2
    have c2' : ¬ (300 ≤ s.createComment.resp.StatusCode) := not_le.mpr c2
    simp only [scriptedRun, ReportOnIssue, scriptedClient, leadingCalls, e1, c1, e2, c2', ne_eq,
      not_true_eq_false, if_false, ge_iff_le]
    cases he : s.edit.err with
    | some err => simp
    | none =>
      have hc : 300 ≤ s.edit.resp.StatusCode := by
        rcases h3 with h | h
        · exact absurd he h
        · exact h
      simp [hc]
  · intro h1 h2 h3 h4
    simp only [readFailed, writeFailed, not_or, not_not, ne_eq, ge_iff_le, not_le]
      at h1 h2 h3 h4
    obtain ⟨e1, c1⟩ := h1
    obtain ⟨e2, c2⟩ := h2
    obtain ⟨e3, c3⟩ := h3
    have c2' : ¬ (300 ≤ s.createComment.resp.StatusCode) := not_le.mpr c2
    have c3' : ¬ (300 ≤ s.edit.resp.StatusCode) := not_le.mpr c3
    simp only [scriptedRun, ReportOnIssue, scriptedClient, leadingCalls, e1, c1, e2, c2', e3,
      c3', ne_eq, not_true_eq_false, if_false, ge_iff_le]
    cases he : s.listComments.err with
    | some err => simp
    | none =>
      have hc : s.listComments.resp.StatusCode ≠ 200 := by
        rcases h4 with h | h
        · exact absurd he h
        · exact h
      simp [hc]
  · intro h1 h2 h3 h4
    rw [scriptedRun_of_leading s e logs token org repo issue h1 h2 h3 h4]
    refine ⟨deleteOtherComments_scripted_calls s org repo _ _ _ _, ?_⟩
    intro hd
    rw [deleteOtherComments_scripted s org repo _ _ _ _ hd]
    rfl

/-- C6 as stated fails: no leading call fails, the listing holds a comment whose user is
null, and `ReportOnIssue` panics on it at github.go:100 and does not return `nil`. -/
theorem reportOnIssue_call_order_counterexample :
    ¬ readFailed nullUserScript.usersGet ∧ ¬ writeFailed nullUserScript.createComment ∧
      ¬ writeFailed nullUserScript.edit ∧ ¬ readFailed nullUserScript.listComments ∧
      (scriptedRun nullUserScript (some (ascii "boom")) (ascii "+a\nb") (ascii "tok")
        (ascii "o") (ascii "r") 5).1 = Exit.panicked := by
  refine ⟨?_, ?_, ?_, ?_, ?_⟩
  · simp [readFailed, nullUserScript]
  · simp [writeFailed, nullUserScript]
  · simp [writeFailed, nullUserScript]
  · simp [readFailed, nullUserScript]
  · decide

/-- C7 as amended. When the listing has been obtained and every pointer that the cleanup
dereferences is there (each listed comment has an author id, the caller has an id, and
a listed comment of the caller and the new comment have ids), the `DeleteComment` calls
are exactly one per listed comment whose author id is the caller's and whose id is not
the new comment's, in list order; nothing else is deleted, and whatever the deletions
answer (failures included) every one of them is attempted and `ReportOnIssue` returns
`nil`. -/
theorem reportOnIssue_deletes (s : Script) (e : GoError) (logs token org repo : GoString)
    (issue : Int) (h1 : ¬ readFailed s.usersGet) (h2 : ¬ writeFailed s.createComment)
    (h3 : ¬ writeFailed s.edit) (h4 : ¬ readFailed s.listComments)
    (hd : ∀ c ∈ s.listComments.value,
      Dereferenceable s.usersGet.value s.createComment.value c) :
    (scriptedRun s e logs token org repo issue).1 = Exit.returned none ∧
      (scriptedRun s e logs token org repo issue).2.drop 4 =
        ((s.listComments.value.filter
          (fun c => decide (authorID c = s.usersGet.value.ID ∧
            commentID c ≠ s.createComment.value.ID))).filterMap commentID).map
          (fun i => ApiCall.DeleteComment org repo i) := by
  rw [scriptedRun_of_leading s e logs token org repo issue h1 h2 h3 h4,
    deleteOtherComments_scripted s org repo _ _ _ _ hd]
  exact ⟨rfl, by simp [leadingCalls]⟩

/-- Witness of C7 as amended: every deletion fails, the two stale comments of the caller
are both attempted, the comment of the other author and the new comment are not. -/
theorem reportOnIssue_deletes_witness :
    (scriptedRun sampleScript (some (ascii "boom")) (ascii "+a\nb") (ascii "tok") (ascii "o")
        (ascii "r") 5).1 = Exit.returned none ∧
      (scriptedRun sampleScript (some (ascii "boom")) (ascii "+a\nb") (ascii "tok") (ascii "o")
        (ascii "r") 5).2.drop 4 =
        [ApiCall.DeleteComment (ascii "o") (ascii "r") 1,
          ApiCall.DeleteComment (ascii "o") (ascii "r") 3] :=
  reportOnIssue_deletes sampleScript (some (ascii "boom")) (ascii "+a\nb") (ascii "tok")
    (ascii "o") (ascii "r") 5 (by simp [readFailed, sampleScript])
    (by simp [writeFailed, sampleScript]) (by simp [writeFailed, sampleScript])
    (by simp [readFailed, sampleScript])
    (by simp [sampleScript, listedComment, Dereferenceable, authorID, commentID])

/-- C7 as stated fails: the listing holds an older comment of the caller (id 1), a
comment whose user is null, and another older comment of the caller (id 3); the first
is deleted, `ReportOnIssue` panics on the second at github.go:100, the deletion of the
third is never attempted and `nil` is not returned. -/
theorem reportOnIssue_deletes_counterexample :
    (scriptedRun nullUserScript (some (ascii "boom")) (ascii "+a\nb") (ascii "tok")
        (ascii "o") (ascii "r") 5).1 = Exit.panicked ∧
      (scriptedRun nullUserScript (some (ascii "boom")) (ascii "+a\nb") (ascii "tok")
        (ascii "o") (ascii "r") 5).2.drop 4 =
        [ApiCall.DeleteComment (ascii "o") (ascii "r") 1] := by
  decide

/-! ## Properties of `ReportOnIssue`: the remote issue -/

/-- A run that returns `nil`, for any client: each of the four leading calls came back
without error and with an accepted status, and the world is the one the cleanup leaves. -/
theorem reportOnIssue_of_nil {W : Type} (client : Client W) (e : GoError)
    (logs token org repo : GoString) (issue : Int) (w : W)
    (hnil : (ReportOnIssue (fun _ => client) e logs token org repo issue w).1 =
      Exit.returned none) :
    ∃ (a : ApiResult User × W) (b : ApiResult IssueComment × W) (c : ApiResult Unit × W)
      (d : ApiResult (List (Option IssueComment)) × W),
      a = client.UsersGet [] w ∧
      b = client.IssuesCreateComment org repo issue
        (commentBody e (stringsReplaceAll logs token redaction)) a.2 ∧
      c = client.IssuesEdit org repo issue (ascii "open") b.2 ∧
      d = client.IssuesListComments org repo issue c.2 ∧
      (a.1.err = none ∧ a.1.resp.StatusCode = 200) ∧
      (b.1.err = none ∧ b.1.resp.StatusCode < 300) ∧
      (c.1.err = none ∧ c.1.resp.StatusCode < 300) ∧
      (d.1.err = none ∧ d.1.resp.StatusCode = 200) ∧
      (ReportOnIssue (fun _ => client) e logs token org repo issue w).2 =
        (deleteOtherComments client org repo a.1.value b.1.value d.1.value d.2).2 := by
  refine ⟨_, _, _, _, rfl, rfl, rfl, rfl, ?_⟩
  unfold ReportOnIssue at hnil ⊢
  simp only at hnil ⊢
  split at hnil
  · simp at hnil
  · rename_i he1
    split at hnil
    · simp at hnil
    · rename_i hs1
      split at hnil
      · simp at hnil
      · rename_i he2
        split at hnil
        · simp at hnil
        · rename_i hs2
          split at hnil
          · simp at hnil
          · rename_i he3
            split at hnil
            · simp at hnil
            · rename_i hs3
              split at hnil
              · simp at hnil
              · rename_i he4
                split at hnil
                · simp at hnil
                · rename_i hs4
                  simp only [he1, he2, he3, he4, hs1, hs2, hs3, hs4, if_false]
                  simp only [ne_eq, not_not, ge_iff_le, not_le] at hs1 hs2 hs3 hs4
                  refine ⟨⟨trivial, hs1⟩, ⟨trivial, hs2⟩, ⟨trivial, hs3⟩, ⟨trivial, hs4⟩, ?_⟩
                  split <;> rename_i hw <;> simp [hw]

/-- An accepted answer of the remote side means the call was carried out. -/
theorem Remote.answer_of_accepted {α : Type} (r : Remote) (status : Int) (value failed : α)
    (effect : Remote → Remote)
    (herr : (r.answer status value failed effect).1.err = none)
    (hst : (r.answer status value failed effect).1.resp.StatusCode < 300) :
    r.answer status value failed effect =
      ({ value := value, resp := ⟨status⟩, err := none },
        effect { r with calls := r.calls + 1 }) := by
  unfold Remote.answer at herr hst ⊢
  cases h : r.outcomes r.calls with
  | ok => rfl
  | transportError msg => simp [h] at herr
  | httpError n =>
    simp only [h] at hst
    omega

/-- An accepted identity lookup. -/
theorem remoteClient_usersGet_accepted (r : Remote) (user : GoString)
    (herr : (remoteClient.UsersGet user r).1.err = none)
    (hst : (remoteClient.UsersGet user r).1.resp.StatusCode = 200) :
    remoteClient.UsersGet user r =
      (⟨r.self.decoded, ⟨200⟩, none⟩, { r with calls := r.calls + 1 }) :=
  Remote.answer_of_accepted r 200 r.self.decoded ⟨none⟩ id herr (lt_of_eq_of_lt hst (by decide))

/-- An accepted comment creation. -/
theorem remoteClient_createComment_accepted (r : Remote) (org repo : GoString) (issue : Int)
    (body : GoString)
    (herr : (remoteClient.IssuesCreateComment org repo issue body r).1.err = none)
    (hst : (remoteClient.IssuesCreateComment org repo issue body r).1.resp.StatusCode < 300) :
    remoteClient.IssuesCreateComment org repo issue body r =
      (⟨(r.newComment body).decoded, ⟨201⟩, none⟩,
        { r with calls := r.calls + 1, comments := r.comments ++ [r.newComment body] }) :=
  Remote.answer_of_accepted r 201 _ _ _ herr hst

/-- An accepted state edit. -/
theorem remoteClient_edit_accepted (r : Remote) (org repo : GoString) (issue : Int)
    (state : GoString)
    (herr : (remoteClient.IssuesEdit org repo issue state r).1.err = none)
    (hst : (remoteClient.IssuesEdit org repo issue state r).1.resp.StatusCode < 300) :
    remoteClient.IssuesEdit org repo issue state r =
      (⟨(), ⟨200⟩, none⟩, { r with calls := r.calls + 1, state := state }) :=
  Remote.answer_of_accepted r 200 _ _ _ herr hst

/-- An accepted listing. -/
theorem remoteClient_listComments_accepted (r : Remote) (org repo : GoString) (issue : Int)
    (herr : (remoteClient.IssuesListComments org repo issue r).1.err = none)
    (hst : (remoteClient.IssuesListComments org repo issue r).1.resp.StatusCode = 200) :
    remoteClient.IssuesListComments org repo issue r =
      (⟨(r.comments.take r.perPage).map (fun c => some c.decoded), ⟨200⟩, none⟩,
        { r with calls := r.calls + 1 }) :=
  Remote.answer_of_accepted r 200 _ _ _ herr (lt_of_eq_of_lt hst (by decide))

/-- The remote issue after a run that returned `nil`: re-opened, with the new comment
appended, and then cleaned up from what the listing showed. -/
theorem remoteRun_of_nil (r : Remote) (e : GoError) (logs token org repo : GoString)
    (issue : Int)
    (hnil : (remoteRun r e logs token org repo issue).1 = Exit.returned none) :
    (remoteRun r e logs token org repo issue).2 =
      (deleteOtherComments remoteClient org repo r.self.decoded
        (r.newComment (commentBody e (stringsReplaceAll logs token redaction))).decoded
        (((r.comments ++
          [r.newComment (commentBody e (stringsReplaceAll logs token redaction))]).take
            r.perPage).map (fun c => some c.decoded))
        { r with
          state := ascii "open"
          comments := r.comments ++
            [r.newComment (commentBody e (stringsReplaceAll logs token redaction))]
          calls := r.calls + 1 + 1 + 1 + 1 }).2 := by
  obtain ⟨a, b, c, d, ha, hb, hc, hd, ⟨ea, sa⟩, ⟨eb, sb⟩, ⟨ec, sc⟩, ⟨ed, sd⟩, hfin⟩ :=
    reportOnIssue_of_nil remoteClient e logs token org repo issue r hnil
  have ha2 := ha.trans
    (remoteClient_usersGet_accepted r [] (by rw [← ha]; exact ea) (by rw [← ha]; exact sa))
  subst ha2
  dsimp only at hb
  have hb2 := hb.trans
    (remoteClient_createComment_accepted _ _ _ _ _ (by rw [← hb]; exact eb)
      (by rw [← hb]; exact sb))
  subst hb2
  dsimp only at hc
  have hc2 := hc.trans
    (remoteClient_edit_accepted _ _ _ _ _ (by rw [← hc]; exact ec) (by rw [← hc]; exact sc))
  subst hc2
  dsimp only at hd
  have hd2 := hd.trans
    (remoteClient_listComments_accepted _ _ _ _ (by rw [← hd]; exact ed)
      (by rw [← hd]; exact sd))
  subst hd2
  exact hfin

/-- Every id in use is below the fresh id. -/
theorem lt_freshID (comments : List StoredComment) :
    ∀ c ∈ comments, c.ID < freshID comments := by
  induction comments with
  | nil => simp
  | cons a l ih =>
    intro c hc
    simp only [freshID, List.map_cons, List.foldr_cons] at ih ⊢
    rcases List.mem_cons.mp hc with rfl | hc
    · have := le_max_left c.ID (List.foldr max 0 (List.map (fun c => c.ID) l))
      omega
    · have := ih c hc
      have := le_max_right a.ID (List.foldr max 0 (List.map (fun c => c.ID) l))
      omega

/-- The cleanup changes neither the state of the issue nor the identity, whatever the
listing shows and whatever the deletions answer. -/
theorem deleteOtherComments_remote_state (org repo : GoString) (myself : User)
    (newComment : IssueComment) :
    ∀ (comments : List (Option IssueComment)) (w : Remote),
      (deleteOtherComments remoteClient org repo myself newComment comments w).2.state =
          w.state ∧
        (deleteOtherComments remoteClient org repo myself newComment comments w).2.self =
          w.self
  | [], w => by simp [deleteOtherComments]
  | c :: rest, w => by
    unfold deleteOtherComments
    rcases staleID myself newComment c with _ | _ | id
    · simp
    · simp only
      exact deleteOtherComments_remote_state org repo myself newComment rest w
    · simp only
      obtain ⟨i1, i2⟩ := deleteOtherComments_remote_state org repo myself newComment rest
        (remoteClient.IssuesDeleteComment org repo id w).2
      rw [i1, i2]
      simp only [remoteClient, Remote.answer]
      cases w.outcomes w.calls <;> simp

/-- The condition of github.go:100 on a comment as the service lists it. -/
theorem staleID_decoded (self : Account) (new c : StoredComment) :
    staleID self.decoded new.decoded (some c.decoded) =
      some (if c.User.ID = self.ID ∧ c.ID ≠ new.ID then some c.ID else none) := by
  by_cases h1 : c.User.ID = self.ID
  · by_cases h2 : c.ID = new.ID
    · simp [staleID, Account.decoded, StoredComment.decoded, h1, h2]
    · simp [staleID, Account.decoded, StoredComment.decoded, h1, h2]
  · simp [staleID, Account.decoded, StoredComment.decoded, h1]

/-- The cleanup on a listing of stored comments when every deletion succeeds: the
comments left are those whose id is not the id of a listed comment of the caller other
than the new one. -/
theorem deleteOtherComments_remote_comments (org repo : GoString) (self : Account)
    (new : StoredComment) :
    ∀ (listed : List StoredComment) (w : Remote),
      (∀ k, w.calls ≤ k → w.outcomes k = .ok) →
      (deleteOtherComments remoteClient org repo self.decoded new.decoded
          (listed.map (fun c => some c.decoded)) w).2.comments =
        w.comments.filter (fun x =>
          decide (x.ID ∉ (listed.filter
            (fun c => decide (c.User.ID = self.ID ∧ c.ID ≠ new.ID))).map (fun c => c.ID)))
  | [], w, _ => by simp [deleteOtherComments]
  | c :: rest, w, hok => by
    have ih := deleteOtherComments_remote_comments org repo self new rest
    rw [List.map_cons]
    unfold deleteOtherComments
    rw [staleID_decoded]
    by_cases hc : c.User.ID = self.ID ∧ c.ID ≠ new.ID
    · rw [if_pos hc]
      simp only
      have h0 : w.outcomes w.calls = .ok := hok _ (le_refl _)
      have hw : (remoteClient.IssuesDeleteComment org repo c.ID w).2 =
          { w with calls := w.calls + 1,
                   comments := w.comments.filter (fun x => x.ID ≠ c.ID) } := by
        simp [remoteClient, Remote.answer, h0]
      have ih1 := ih { w with calls := w.calls + 1,
                              comments := w.comments.filter (fun x => x.ID ≠ c.ID) }
        (fun k hk => hok k (by simp only at hk; omega))
      rw [hw, ih1]
      simp only [List.filter_cons, hc, decide_True, ne_eq, not_false_eq_true,
        and_self, if_true, List.map_cons, List.mem_cons, not_or, List.filter_filter]
      apply List.filter_congr
      intro x _
      simp [Bool.and_comm]
    · rw [if_neg hc]
      simp only
      rw [ih w hok]
      simp [hc]

/-- C2 as amended. Whenever `ReportOnIssue` returns `nil` the issue is open; and when in
addition the listing returned all comments of the issue and every `DeleteComment` call
succeeded, exactly one comment of the caller remains, the one just created. -/
theorem reportOnIssue_remote (r : Remote) (e : GoError) (logs token org repo : GoString)
    (issue : Int)
    (hnil : (remoteRun r e logs token org repo issue).1 = Exit.returned none) :
    (remoteRun r e logs token org repo issue).2.state = ascii "open" ∧
    (r.comments.length < r.perPage → (∀ k, r.calls + 4 ≤ k → r.outcomes k = .ok) →
      (remoteRun r e logs token org repo issue).2.ownComments =
        [r.newComment (commentBody e (stringsReplaceAll logs token redaction))]) := by
  rw [remoteRun_of_nil r e logs token org repo issue hnil]
  refine ⟨?_, ?_⟩
  · rw [(deleteOtherComments_remote_state _ _ _ _ _ _).1]
  · intro hpage hok
    unfold Remote.ownComments
    have htake : ∀ c : StoredComment, (r.comments ++ [c]).take r.perPage = r.comments ++ [c] := by
      intro c
      apply List.take_of_length_le
      simp
      omega
    rw [htake, (deleteOtherComments_remote_state _ _ _ _ _ _).2,
      deleteOtherComments_remote_comments org repo r.self _ _
        { r with
          state := ascii "open"
          comments := r.comments ++
            [r.newComment (commentBody e (stringsReplaceAll logs token redaction))]
          calls := r.calls + 1 + 1 + 1 + 1 }
        (fun k hk => hok k (by simp only at hk; omega))]
    have hfresh := lt_freshID r.comments
    have hnew : ∀ body, (r.newComment body).ID = freshID r.comments := fun _ => rfl
    have hself : ∀ body, (r.newComment body).User = r.self := fun _ => rfl
    have hS1 : ∀ a ∈ r.comments, a.User.ID = r.self.ID →
        a.ID ∈ ((r.comments ++
            [r.newComment (commentBody e (stringsReplaceAll logs token redaction))]).filter
          (fun c => decide (c.User.ID = r.self.ID ∧
            c.ID ≠ (r.newComment
              (commentBody e (stringsReplaceAll logs token redaction))).ID))).map
          (fun c => c.ID) := by
      intro a ha hown
      have hlt := hfresh a ha
      refine List.mem_map.mpr ⟨a, ?_, rfl⟩
      simp only [List.mem_filter, List.mem_append, decide_eq_true_eq]
      exact ⟨Or.inl ha, hown, by rw [hnew]; omega⟩
    have hS2 : (r.newComment (commentBody e (stringsReplaceAll logs token redaction))).ID ∉
        ((r.comments ++
            [r.newComment (commentBody e (stringsReplaceAll logs token redaction))]).filter
          (fun c => decide (c.User.ID = r.self.ID ∧
            c.ID ≠ (r.newComment
              (commentBody e (stringsReplaceAll logs token redaction))).ID))).map
          (fun c => c.ID) := by
      intro hmem
      obtain ⟨x, hx, hid⟩ := List.mem_map.mp hmem
      simp only [List.mem_filter, decide_eq_true_eq] at hx
      exact hx.2.2 hid
    generalize ((r.comments ++
            [r.newComment (commentBody e (stringsReplaceAll logs token redaction))]).filter
          (fun c => decide (c.User.ID = r.self.ID ∧
            c.ID ≠ (r.newComment
              (commentBody e (stringsReplaceAll logs token redaction))).ID))).map
          (fun c => c.ID) = S at hS1 hS2 ⊢
    simp only [List.filter_filter, List.filter_append]
    have hold : r.comments.filter (fun a =>
        decide (a.User.ID = r.self.ID) && decide (a.ID ∉ S)) = [] := by
      rw [List.filter_eq_nil_iff]
      intro a ha
      simp only [Bool.and_eq_true, decide_eq_true_eq, not_and, not_not]
      exact hS1 a ha
    rw [hold]
    simp only [List.nil_append]
    rw [List.filter_eq_self.mpr]
    intro a ha
    obtain rfl := List.mem_singleton.mp ha
    simp only [Bool.and_eq_true, decide_eq_true_eq, hself, true_and]
    exact hS2

/-- Witness of C2 as amended: a closed issue with two older comments of the caller and
one of somebody else, every call succeeding. -/
theorem reportOnIssue_remote_witness :
    (remoteRun remoteHealthy (some (ascii "boom")) (ascii "+a\nb") (ascii "tok") (ascii "o")
        (ascii "r") 5).2.state = ascii "open" ∧
      (remoteRun remoteHealthy (some (ascii "boom")) (ascii "+a\nb") (ascii "tok") (ascii "o")
        (ascii "r") 5).2.ownComments =
        [remoteHealthy.newComment
          (commentBody (some (ascii "boom")) (stringsReplaceAll (ascii "+a\nb") (ascii "tok")
            redaction))] :=
  ⟨(reportOnIssue_remote remoteHealthy (some (ascii "boom")) (ascii "+a\nb") (ascii "tok")
      (ascii "o") (ascii "r") 5 (by decide)).1,
    (reportOnIssue_remote remoteHealthy (some (ascii "boom")) (ascii "+a\nb") (ascii "tok")
      (ascii "o") (ascii "r") 5 (by decide)).2 (by decide) (fun _ _ => rfl)⟩

/-- C2 as stated fails: `ReportOnIssue` returns `nil` and two comments of the caller
remain, once because the deletion of the older comment fails, once because the listing
shows only the first comment. -/
theorem reportOnIssue_remote_counterexample :
    ((remoteRun remoteDeleteFails (some (ascii "boom")) (ascii "+a\nb") (ascii "tok")
        (ascii "o") (ascii "r") 5).1 = Exit.returned none ∧
      ((remoteRun remoteDeleteFails (some (ascii "boom")) (ascii "+a\nb") (ascii "tok")
        (ascii "o") (ascii "r") 5).2.ownComments.map (fun c => c.ID)) = [1, 2]) ∧
    ((remoteRun remoteShortPage (some (ascii "boom")) (ascii "+a\nb") (ascii "tok")
        (ascii "o") (ascii "r") 5).1 = Exit.returned none ∧
      ((remoteRun remoteShortPage (some (ascii "boom")) (ascii "+a\nb") (ascii "tok")
        (ascii "o") (ascii "r") 5).2.ownComments.map (fun c => c.ID)) = [2, 3]) := by
  decide

/-! ## Properties of the `strings` functions -/

/-- `strings.HasPrefix` decides the prefix relation. -/
theorem stringsHasPrefix_iff (s pre : GoString) : stringsHasPrefix s pre = true ↔ pre <+: s := by
  unfold stringsHasPrefix
  exact List.isPrefixOf_iff_prefix

/-- Dropping the first byte keeps a last byte other than `x`. -/
theorem getLast?_ne_of_cons (x y : UInt8) (u : GoString)
    (h : (y :: u).getLast? ≠ some x) : u.getLast? ≠ some x := by
  cases u with
  | nil => simp
  | cons z u' => rwa [List.getLast?_cons_cons] at h

/-- A non-empty prefix of a text made of the byte `x` ends with `x`. -/
theorem getLast?_of_prefix_const (x : UInt8) (new u : GoString) (hx : ∀ y ∈ new, y = x)
    (hu : u ≠ []) (h : u <+: new) : u.getLast? = some x := by
  rw [List.getLast?_eq_getLast _ hu]
  exact congrArg some (hx _ (h.subset (List.getLast_mem hu)))

/-- A prefix of the output of a replacement that neither ends with the byte `x` of the
replacement text nor contains the replacement text is a prefix of the input still to be
read. -/
theorem prefix_of_prefix_replaceGo (old new : GoString) (x : UInt8) (hnew : new ≠ [])
    (hx : ∀ y ∈ new, y = x) :
    ∀ (s : GoString) (k : Nat) (u : GoString), u.getLast? ≠ some x → ¬ new <:+: u →
      u <+: replaceGo old new k s → u <+: s.drop k
  | [], k, u, _, _, h => by
    simp only [replaceGo, List.prefix_nil] at h
    simp [h]
  | c :: cs, k + 1, u, hl, hi, h => by
    simp only [replaceGo] at h
    simpa using prefix_of_prefix_replaceGo old new x hnew hx cs k u hl hi h
  | c :: cs, 0, u, hl, hi, h => by
    simp only [replaceGo] at h
    rw [List.drop_zero]
    cases u with
    | nil => exact List.nil_prefix
    | cons y u' =>
      split at h
      · rcases List.prefix_or_prefix_of_prefix h (List.prefix_append new _) with h1 | h1
        · exact absurd (getLast?_of_prefix_const x new _ hx (List.cons_ne_nil _ _) h1) hl
        · exact absurd h1.isInfix hi
      · rw [List.cons_prefix_cons] at h ⊢
        refine ⟨h.1, ?_⟩
        simpa using prefix_of_prefix_replaceGo old new x hnew hx cs 0 u'
          (getLast?_ne_of_cons x y u' hl)
          (fun hin => hi (hin.trans (List.suffix_cons y u').isInfix)) h.2

/-- An occurrence of `t` in `a ++ r` lies in `r` unless `t` begins with a byte of `a`. -/
theorem infix_append_cases (t : GoString) (ht : t ≠ []) :
    ∀ (a r : GoString), t <:+: a ++ r → t <:+: r ∨ ∃ y, t.head? = some y ∧ y ∈ a
  | [], r, h => Or.inl (by simpa using h)
  | n :: ns, r, h => by
    rw [List.cons_append, List.infix_cons_iff] at h
    rcases h with h | h
    · cases t with
      | nil => exact absurd rfl ht
      | cons y t' =>
        rw [List.cons_prefix_cons] at h
        exact Or.inr ⟨y, rfl, List.mem_cons.mpr (Or.inl h.1)⟩
    · rcases infix_append_cases t ht ns r h with h | ⟨y, hy, hya⟩
      · exact Or.inl h
      · exact Or.inr ⟨y, hy, List.mem_cons_of_mem _ hya⟩

/-- After the replacement of a non-empty `old` by a non-empty text made of the byte `x`,
`old` does not occur in the result, provided that `old` neither begins nor ends with
`x` and does not contain the replacement text. -/
theorem not_infix_replaceGo (old new : GoString) (x : UInt8) (hold : old ≠ [])
    (hnew : new ≠ []) (hx : ∀ y ∈ new, y = x) (hhead : old.head? ≠ some x)
    (hlast : old.getLast? ≠ some x) (hin : ¬ new <:+: old) :
    ∀ (s : GoString) (k : Nat), ¬ old <:+: replaceGo old new k s
  | [], k => by
    simp only [replaceGo, List.infix_nil]
    exact hold
  | c :: cs, k + 1 => by
    simp only [replaceGo]
    exact not_infix_replaceGo old new x hold hnew hx hhead hlast hin cs k
  | c :: cs, 0 => by
    simp only [replaceGo]
    split
    · intro h
      rcases infix_append_cases old hold _ _ h with h | ⟨y, hy, hyn⟩
      · exact not_infix_replaceGo old new x hold hnew hx hhead hlast hin cs _ h
      · exact hhead (hx y hyn ▸ hy)
    · rename_i hpre
      intro h
      rw [List.infix_cons_iff] at h
      rcases h with h | h
      · cases old with
        | nil => exact absurd rfl hold
        | cons o os =>
          rw [List.cons_prefix_cons] at h
          have h2 := prefix_of_prefix_replaceGo (o :: os) new x hnew hx cs 0 os
            (getLast?_ne_of_cons x o os hlast)
            (fun hi => hin (hi.trans (List.suffix_cons o os).isInfix)) h.2
          rw [List.drop_zero] at h2
          exact hpre ((stringsHasPrefix_iff _ _).mpr (List.cons_prefix_cons.mpr ⟨h.1, h2⟩))
      · exact not_infix_replaceGo old new x hold hnew hx hhead hlast hin cs 0 h

/-- The redacted log text does not contain a non-empty token that neither begins nor
ends with the byte "X" and does not contain the 32 bytes of the replacement text. -/
theorem not_contains_redacted (logs token : GoString) (htoken : token ≠ [])
    (hhead : token.head? ≠ some 88) (hlast : token.getLast? ≠ some 88)
    (hred : ¬ Contains token redaction) :
    ¬ Contains (stringsReplaceAll logs token redaction) token := by
  unfold Contains at hred ⊢
  unfold stringsReplaceAll
  rw [if_neg htoken]
  apply not_infix_replaceGo token redaction 88 htoken (by decide) _ hhead hlast hred
  intro y hy
  revert hy
  simp [redaction, ascii]

/-- An occurrence of `t` in `a ++ c :: b` lies in `a` or in `b` when `c` is no byte of `t`. -/
theorem infix_of_infix_append_cons (t a b : GoString) (c : UInt8) (hc : c ∉ t)
    (h : t <:+: a ++ c :: b) : t <:+: a ∨ t <:+: b := by
  obtain ⟨p, q, h⟩ := h
  rw [List.append_eq_append_iff] at h
  rcases h with ⟨a', rfl, _⟩ | ⟨c', h1, h2⟩
  · exact Or.inl ⟨p, a', rfl⟩
  · cases c' with
    | nil =>
      rw [List.append_nil] at h1
      exact Or.inl ⟨p, [], by rw [List.append_nil, h1]⟩
    | cons x c'' =>
      obtain ⟨rfl, rfl⟩ : c = x ∧ b = c'' ++ q := by simpa using h2
      rw [List.append_eq_append_iff] at h1
      rcases h1 with ⟨a', _, rfl⟩ | ⟨d, rfl, h3⟩
      · exact absurd (List.mem_append_right _ (List.mem_cons_self _ _)) hc
      · cases d with
        | nil =>
          rw [List.nil_append] at h3
          exact absurd (h3 ▸ List.mem_cons_self _ _) hc
        | cons y d' =>
          obtain ⟨_, rfl⟩ : c = y ∧ c'' = d' ++ t := by simpa using h3
          exact Or.inr ⟨d', q, by simp⟩

/-- An occurrence of a non-empty `t` in lines joined by a byte that `t` does not contain
lies within one of the lines. -/
theorem infix_of_infix_stringsJoin (t : GoString) (ht : t ≠ []) (c : UInt8) (hc : c ∉ t) :
    ∀ (lines : List GoString), t <:+: stringsJoin lines [c] → ∃ l ∈ lines, t <:+: l
  | [], h => by
    simp only [stringsJoin, List.infix_nil] at h
    exact absurd h ht
  | [a], h => ⟨a, List.mem_singleton.mpr rfl, h⟩
  | a :: b :: rest, h => by
    simp only [stringsJoin, List.append_assoc, List.singleton_append] at h
    rcases infix_of_infix_append_cons t a _ c hc h with h | h
    · exact ⟨a, List.mem_cons_self _ _, h⟩
    · obtain ⟨l, hl, hlt⟩ := infix_of_infix_stringsJoin t ht c hc (b :: rest) h
      exact ⟨l, List.mem_cons_of_mem _ hl, hlt⟩

/-- Every element of a joined list occurs in the result. -/
theorem infix_stringsJoin_of_mem (sep : GoString) :
    ∀ (lines : List GoString) (l : GoString), l ∈ lines → l <:+: stringsJoin lines sep
  | [a], l, h => by
    rw [List.mem_singleton.mp h]
    exact List.infix_refl _
  | a :: b :: rest, l, h => by
    simp only [stringsJoin]
    rcases List.mem_cons.mp h with rfl | h
    · exact ⟨[], sep ++ stringsJoin (b :: rest) sep, by simp⟩
    · obtain ⟨p, q, hpq⟩ := infix_stringsJoin_of_mem sep (b :: rest) l h
      exact ⟨a ++ sep ++ p, q, by simp [← hpq]⟩

/-- A split never yields an empty list of pieces. -/
theorem splitGo_ne_nil (sep : GoString) : ∀ (s : GoString) (k : Nat), splitGo sep k s ≠ []
  | [], k => by simp [splitGo]
  | c :: cs, k + 1 => by
    simp only [splitGo]
    exact splitGo_ne_nil sep cs k
  | c :: cs, 0 => by
    simp only [splitGo]
    split
    · simp
    · split <;> simp

/-- Joining the pieces of a split by the separator gives the text back. -/
theorem stringsJoin_splitGo (sep : GoString) (hsep : sep ≠ []) :
    ∀ (s : GoString) (k : Nat), stringsJoin (splitGo sep k s) sep = s.drop k
  | [], k => by simp [splitGo, stringsJoin]
  | c :: cs, k + 1 => by
    simp only [splitGo, List.drop_succ_cons]
    exact stringsJoin_splitGo sep hsep cs k
  | c :: cs, 0 => by
    simp only [splitGo, List.drop_zero]
    split
    · rename_i hpre
      obtain ⟨t, ht⟩ := (stringsHasPrefix_iff _ _).mp hpre
      have ih := stringsJoin_splitGo sep hsep cs (sep.length - 1)
      cases hs : splitGo sep (sep.length - 1) cs with
      | nil => exact absurd hs (splitGo_ne_nil sep cs _)
      | cons p ps =>
        rw [hs] at ih
        simp only [stringsJoin, List.nil_append, ih]
        cases sep with
        | nil => exact absurd rfl hsep
        | cons o os =>
          obtain ⟨rfl, rfl⟩ : o = c ∧ os ++ t = cs := by simpa using ht
          simp
    · have ih := stringsJoin_splitGo sep hsep cs 0
      rw [List.drop_zero] at ih
      split
      · rename_i p ps hs
        rw [hs] at ih
        rw [← ih]
        cases ps <;> simp [stringsJoin]
      · rename_i hs
        rw [hs] at ih
        simp only [stringsJoin] at ih ⊢
        rw [← ih]

/-- `strings.Split` followed by `strings.Join` with the same non-empty separator is the
identity. -/
theorem stringsJoin_stringsSplit (s sep : GoString) (hsep : sep ≠ []) :
    stringsJoin (stringsSplit s sep) sep = s := by
  unfold stringsSplit
  rw [stringsJoin_splitGo sep hsep, List.drop_zero]

/-! ## Properties of the comment body -/

/-- The newline as a one-byte string. -/
theorem ascii_newline : ascii "\n" = [10] := rfl

/-- The builder of `ReportOnIssue` before its text is finished, for any byte budget and
any line count: two headings, the joined lines as the one log piece, one trailing
line. -/
theorem logBuilder_pipeline (maxBytes n : Nat) (rawLogs h1 h2 t cutset sep1 sep2 : GoString)
    (predicate : GoString → Bool) :
    (newLogBuilderWithMaxBytes maxBytes rawLogs
      |>.addHeading h1
      |>.addHeading h2
      |>.trim cutset
      |>.split sep1
      |>.filter predicate
      |>.tail n
      |>.join sep2
      |>.addTailing t) =
      { maxBytes := maxBytes
        headings := [h1, h2]
        logs := [stringsJoin
          (lastLines n
            ((stringsSplit (stringsTrimRight rawLogs cutset) sep1).filter predicate)) sep2]
        tailings := [t] } := by
  simp [newLogBuilderWithMaxBytes, logBuilder.addHeading, logBuilder.trim, logBuilder.split,
    logBuilder.filter, logBuilder.tail, logBuilder.join, logBuilder.addTailing, lastLines]

/-- The finished text of a builder with two headings, one log piece and one trailing
line: the four lines when they fit the budget, and otherwise the lines around the last
bytes of the log piece that fit, cut to the budget. -/
theorem logBuilder_log_wrapped (maxBytes : Nat) (h1 h2 content t : GoString) :
    ({ maxBytes := maxBytes, headings := [h1, h2], logs := [content], tailings := [t] } :
      logBuilder).log =
      if (stringsJoin [h1, h2, content, t] (ascii "\n")).length ≤ maxBytes then
        stringsJoin [h1, h2, content, t] (ascii "\n")
      else
        (stringsJoin
          [h1, h2,
            lastBytes (maxBytes - (stringsJoin [h1, h2, [], t] (ascii "\n")).length) content, t]
          (ascii "\n")).take maxBytes := by
  simp [logBuilder.log, stringsJoin]

/-- The finished text of a builder is within its budget. -/
theorem logBuilder.length_log_le (b : logBuilder) : b.log.length ≤ b.maxBytes := by
  unfold logBuilder.log
  simp only
  split
  · assumption
  · exact List.length_take_le _ _

/-- The comment body: heading, fence, log section and fence, one per line, when these
fit the budget of 65000 bytes; otherwise the same lines around the last bytes of the log
section that fit, cut to 65000 bytes. -/
theorem commentBody_cases (e : GoError) (logs : GoString) :
    commentBody e logs =
      if (stringsJoin [failureHeading e, fence, logSection logs, fence] (ascii "\n")).length
          ≤ 65000 then
        stringsJoin [failureHeading e, fence, logSection logs, fence] (ascii "\n")
      else
        (stringsJoin
          [failureHeading e, fence,
            lastBytes
              (65000 - (stringsJoin [failureHeading e, fence, [], fence] (ascii "\n")).length)
              (logSection logs),
            fence]
          (ascii "\n")).take 65000 :=
  (congrArg logBuilder.log
    (logBuilder_pipeline 65000 50 logs (failureHeading e) fence fence (ascii "\n") (ascii "\n")
      (ascii "\n") (fun line => stringsHasPrefix line (ascii "+")))).trans
    (logBuilder_log_wrapped 65000 (failureHeading e) fence (logSection logs) fence)

/-- The comment body is a prefix of the heading, the fence, a suffix of the log section
and the fence, one per line. -/
theorem commentBody_prefix (e : GoError) (logs : GoString) :
    ∃ content : GoString, content <:+ logSection logs ∧
      commentBody e logs <+: stringsJoin [failureHeading e, fence, content, fence] [10] := by
  rw [commentBody_cases, ascii_newline]
  split
  · exact ⟨logSection logs, List.suffix_refl _, List.prefix_refl _⟩
  · exact ⟨_, List.drop_suffix _ _, List.take_prefix _ _⟩

/-- The comment body keeps its heading and both fences whenever these fit the budget:
it is the heading, the fence, a suffix of the log section and the fence, one per line. -/
theorem commentBody_wrapped (e : GoError) (logs : GoString)
    (hfit : (failureHeading e).length + 9 ≤ 65000) :
    ∃ content : GoString, content <:+ logSection logs ∧
      commentBody e logs =
        failureHeading e ++ ascii "\n" ++ fence ++ ascii "\n" ++ content ++ ascii "\n" ++
          fence := by
  have h2 : (ascii "\n").length = 1 := rfl
  have h3 : fence.length = 3 := rfl
  rw [commentBody_cases]
  split
  · exact ⟨logSection logs, List.suffix_refl _, by simp only [stringsJoin, List.append_assoc]⟩
  · refine ⟨lastBytes
      (65000 - (stringsJoin [failureHeading e, fence, [], fence] (ascii "\n")).length)
      (logSection logs), List.drop_suffix _ _, ?_⟩
    rw [List.take_of_length_le]
    · simp only [stringsJoin, List.append_assoc]
    · simp only [stringsJoin, lastBytes, List.length_append, List.length_drop, List.length_nil,
        h2, h3]
      omega

/-- Every line of the log section occurs in the log text. -/
theorem infix_of_mem_lastLines_qualifyingLines (logs l : GoString)
    (hl : l ∈ lastLines 50 (qualifyingLines logs)) : l <:+: logs := by
  have h1 : l ∈ qualifyingLines logs := List.mem_of_mem_drop hl
  have h2 : l ∈ stringsSplit (stringsTrimRight logs (ascii "\n")) (ascii "\n") :=
    (List.mem_filter.mp h1).1
  have h3 := infix_stringsJoin_of_mem (ascii "\n") _ l h2
  rw [stringsJoin_stringsSplit _ _ (by decide)] at h3
  have h4 : stringsTrimRight logs (ascii "\n") <+: logs := by
    unfold stringsTrimRight
    exact List.rdropWhile_prefix _ _
  exact h3.trans h4.isInfix

/-- C1 as amended. A non-empty token that neither begins nor ends with the byte "X",
contains neither the 32 bytes of the replacement text nor a newline, and occurs
neither in the heading line (the fixed text followed by the text of `e`) nor in the
fence line does not occur in the comment body, whatever the log text. -/
theorem commentBody_not_contains_token (e : GoError) (logs token : GoString)
    (htoken : token ≠ []) (hhead : token.head? ≠ some 88) (hlast : token.getLast? ≠ some 88)
    (hred : ¬ Contains token redaction) (hnl : (10 : UInt8) ∉ token)
    (hheading : ¬ Contains (failureHeading e) token) (hfence : ¬ Contains fence token) :
    ¬ Contains (commentBody e (stringsReplaceAll logs token redaction)) token := by
  intro h
  obtain ⟨content, hsuf, hpre⟩ := commentBody_prefix e (stringsReplaceAll logs token redaction)
  unfold Contains at h hheading hfence
  have h' := h.trans hpre.isInfix
  obtain ⟨part, hpart, hin⟩ := infix_of_infix_stringsJoin token htoken 10 hnl _ h'
  simp only [List.mem_cons, List.mem_singleton, List.not_mem_nil, or_false] at hpart
  rcases hpart with hp | hp | hp | hp
  · exact hheading (hp ▸ hin)
  · exact hfence (hp ▸ hin)
  · rw [hp] at hin
    have hsec := hin.trans hsuf.isInfix
    unfold logSection at hsec
    rw [ascii_newline] at hsec
    obtain ⟨l, hl, hlt⟩ := infix_of_infix_stringsJoin token htoken 10 hnl _ hsec
    exact not_contains_redacted logs token htoken hhead hlast hred
      (hlt.trans (infix_of_mem_lastLines_qualifyingLines _ l hl))
  · exact hfence (hp ▸ hin)

/-- Witness of C1 as amended: a token with an "X" inside that occurs twice in the log
text. -/
theorem commentBody_not_contains_token_witness :
    ¬ Contains
      (commentBody (some (ascii "boom"))
        (stringsReplaceAll (ascii "+curl -H ghp_1Xz\nok\n+echo ghp_1Xz") (ascii "ghp_1Xz")
          redaction))
      (ascii "ghp_1Xz") :=
  commentBody_not_contains_token (some (ascii "boom"))
    (ascii "+curl -H ghp_1Xz\nok\n+echo ghp_1Xz") (ascii "ghp_1Xz") (by decide) (by decide)
    (by decide) (by unfold Contains; decide) (by decide) (by unfold Contains; decide)
    (by unfold Contains; decide)

set_option maxRecDepth 8000 in
/-- C1 as stated fails: a non-empty token that occurs in the log text occurs in the
comment body when it is the byte "X" itself, when it begins with "X", when it ends with
"X", when it contains the replacement text, when it occurs in the text of `e`, when it
occurs in the fixed text of the heading, when it occurs in the fence, and when it spans
two "+" lines that filtering brings together. -/
theorem commentBody_contains_token :
    (Contains (ascii "+X") (ascii "X") ∧
      Contains
        (commentBody none (stringsReplaceAll (ascii "+X") (ascii "X") redaction))
        (ascii "X")) ∧
    (Contains (ascii "+Xaa") (ascii "Xa") ∧
      Contains
        (commentBody none (stringsReplaceAll (ascii "+Xaa") (ascii "Xa") redaction))
        (ascii "Xa")) ∧
    (Contains (ascii "+aaX") (ascii "aX") ∧
      Contains
        (commentBody none (stringsReplaceAll (ascii "+aaX") (ascii "aX") redaction))
        (ascii "aX")) ∧
    (Contains (ascii "+aaXXXXXXXXXXXXXXXXXXXXXXXXXXXXXXXXbb")
        (ascii "aXXXXXXXXXXXXXXXXXXXXXXXXXXXXXXXXb") ∧
      Contains
        (commentBody none
          (stringsReplaceAll (ascii "+aaXXXXXXXXXXXXXXXXXXXXXXXXXXXXXXXXbb")
            (ascii "aXXXXXXXXXXXXXXXXXXXXXXXXXXXXXXXXb") redaction))
        (ascii "aXXXXXXXXXXXXXXXXXXXXXXXXXXXXXXXXb")) ∧
    (Contains (ascii "+tok") (ascii "tok") ∧
      Contains
        (commentBody (some (ascii "bad tok")) (stringsReplaceAll (ascii "+tok") (ascii "tok")
          redaction))
        (ascii "tok")) ∧
    (Contains (ascii "+run") (ascii "run") ∧
      Contains
        (commentBody none (stringsReplaceAll (ascii "+run") (ascii "run") redaction))
        (ascii "run")) ∧
    (Contains (ascii "+`") (ascii "`") ∧
      Contains
        (commentBody none (stringsReplaceAll (ascii "+`") (ascii "`") redaction))
        (ascii "`")) ∧
    (Contains (ascii "+a\n+b\n+a\nfoo\n+b") (ascii "+a\n+b") ∧
      Contains
        (commentBody none
          (stringsReplaceAll (ascii "+a\n+b\n+a\nfoo\n+b") (ascii "+a\n+b") redaction))
        (ascii "+a\n+b")) := by
  unfold Contains
  refine ⟨⟨?_, ?_⟩, ⟨?_, ?_⟩, ⟨?_, ?_⟩, ⟨?_, ?_⟩, ⟨?_, ?_⟩, ⟨?_, ?_⟩, ⟨?_, ?_⟩, ⟨?_, ?_⟩⟩ <;>
    decide

/-- No replacement happens in a text without the first byte of `old`. -/
theorem replaceGo_of_not_mem (o : UInt8) (os new : GoString) :
    ∀ (s : GoString), o ∉ s → replaceGo (o :: os) new 0 s = s
  | [], _ => rfl
  | c :: cs, h => by
    have hc : o ≠ c := fun hoc => h (hoc ▸ List.mem_cons_self _ _)
    have hcs : o ∉ cs := fun hm => h (List.mem_cons_of_mem _ hm)
    simp [replaceGo, stringsHasPrefix, List.isPrefixOf, hc, replaceGo_of_not_mem o os new cs hcs]

/-- A text without the first byte of the separator is a single piece. -/
theorem splitGo_of_not_mem (o : UInt8) (os : GoString) :
    ∀ (s : GoString), o ∉ s → splitGo (o :: os) 0 s = [s]
  | [], _ => rfl
  | c :: cs, h => by
    have hc : o ≠ c := fun hoc => h (hoc ▸ List.mem_cons_self _ _)
    have hcs : o ∉ cs := fun hm => h (List.mem_cons_of_mem _ hm)
    simp [splitGo, stringsHasPrefix, List.isPrefixOf, hc, splitGo_of_not_mem o os cs hcs]

/-- Nothing is trimmed from a text without a byte of the cutset. -/
theorem stringsTrimRight_of_not_mem (s cutset : GoString) (h : ∀ x ∈ s, x ∉ cutset) :
    stringsTrimRight s cutset = s := by
  unfold stringsTrimRight
  rw [List.rdropWhile_eq_self_iff]
  intro hl
  simpa using h _ (List.getLast_mem hl)

/-- The redaction, the trimming and the split leave a one-line text of the bytes "+"
and "a" as it is, for the token "tok". -/
theorem plusLine_facts (s : GoString) (hs : ∀ x ∈ s, x = 43 ∨ x = 97) :
    stringsReplaceAll s (ascii "tok") redaction = s ∧
      stringsSplit (stringsTrimRight s (ascii "\n")) (ascii "\n") = [s] := by
  have h116 : (116 : UInt8) ∉ s := fun hm => by rcases hs _ hm with h | h <;> exact absurd h (by decide)
  have h10 : (10 : UInt8) ∉ s := fun hm => by rcases hs _ hm with h | h <;> exact absurd h (by decide)
  refine ⟨?_, ?_⟩
  · have : ascii "tok" = 116 :: [111, 107] := rfl
    rw [stringsReplaceAll, this, if_neg (by simp)]
    exact replaceGo_of_not_mem 116 _ _ s h116
  · have hnl : ascii "\n" = 10 :: [] := rfl
    rw [stringsTrimRight_of_not_mem s _ (fun x hx => by
      rw [hnl]
      intro hm
      exact h10 (List.mem_singleton.mp hm ▸ hx))]
    rw [stringsSplit, hnl]
    exact splitGo_of_not_mem 10 [] s h10

/-- A one-line text of a "+" followed by `n` bytes "a": the redaction with token "tok"
leaves it as it is, and it is its only qualifying line. -/
theorem plusLine_qualifies (n : Nat) :
    stringsReplaceAll (43 :: List.replicate n 97) (ascii "tok") redaction =
        43 :: List.replicate n 97 ∧
      qualifyingLines (43 :: List.replicate n 97) = [43 :: List.replicate n 97] := by
  have hmem : ∀ x ∈ (43 :: List.replicate n 97 : GoString), x = 43 ∨ x = 97 := by
    intro x hx
    rcases List.mem_cons.mp hx with h | h
    · exact Or.inl h
    · exact Or.inr (List.eq_of_mem_replicate h)
  obtain ⟨h1, h2⟩ := plusLine_facts _ hmem
  refine ⟨h1, ?_⟩
  have hplus : ascii "+" = [43] := rfl
  rw [qualifyingLines, h2, hplus]
  simp [stringsHasPrefix, List.isPrefixOf]

/-- C9. The comment body has at most 65000 bytes, for every error value and every log
text. -/
theorem commentBody_length_le (e : GoError) (logs token : GoString) :
    (commentBody e (stringsReplaceAll logs token redaction)).length ≤ 65000 := by
  rw [commentBody_cases]
  split
  · assumption
  · exact List.length_take_le _ _

/-- C8 as amended. When the heading, the two fences and the last 50 qualifying lines of
the redacted log (trimmed of trailing newlines, split on "\n", lines beginning with
"+", in order) fit the budget of 65000 bytes, the text between the fences is the join
of exactly these lines: when more than 50 lines qualify they are the last 50 of them,
otherwise all. -/
theorem commentBody_lines (e : GoError) (logs token : GoString)
    (hfit : (failureHeading e).length +
      (stringsJoin (lastLines 50 (qualifyingLines (stringsReplaceAll logs token redaction)))
        (ascii "\n")).length + 9 ≤ 65000) :
    commentBody e (stringsReplaceAll logs token redaction) =
        failureHeading e ++ ascii "\n" ++ fence ++ ascii "\n" ++
          stringsJoin (lastLines 50 (qualifyingLines (stringsReplaceAll logs token redaction)))
            (ascii "\n") ++
          ascii "\n" ++ fence ∧
      lastLines 50 (qualifyingLines (stringsReplaceAll logs token redaction)) <:+
        qualifyingLines (stringsReplaceAll logs token redaction) ∧
      (50 < (qualifyingLines (stringsReplaceAll logs token redaction)).length →
        (lastLines 50 (qualifyingLines (stringsReplaceAll logs token redaction))).length = 50) ∧
      ((qualifyingLines (stringsReplaceAll logs token redaction)).length ≤ 50 →
        lastLines 50 (qualifyingLines (stringsReplaceAll logs token redaction)) =
          qualifyingLines (stringsReplaceAll logs token redaction)) := by
  refine ⟨?_, List.drop_suffix _ _, ?_, ?_⟩
  · have h2 : (ascii "\n").length = 1 := rfl
    have h3 : fence.length = 3 := rfl
    rw [commentBody_cases, if_pos]
    · simp only [stringsJoin, logSection, List.append_assoc]
    · simp only [stringsJoin, logSection, List.length_append, h2, h3]
      omega
  · intro h
    unfold lastLines
    rw [List.length_drop]
    omega
  · intro h
    unfold lastLines
    rw [Nat.sub_eq_zero_of_le h, List.drop_zero]

/-- Witness of C8 as amended: a short log with two qualifying lines. -/
theorem commentBody_lines_witness :
    commentBody (some (ascii "boom"))
        (stringsReplaceAll (ascii "+a tok\nb\n+c\n\n") (ascii "tok") redaction) =
      ascii "The last publishing run failed: boom\n```\n+a XXXXXXXXXXXXXXXXXXXXXXXXXXXXXXXX\n+c\n```" :=
  (commentBody_lines (some (ascii "boom")) (ascii "+a tok\nb\n+c\n\n") (ascii "tok")
    (by decide)).1

/-- C8 as stated fails: the redacted log is one qualifying line of 65001 bytes, and this
line does not appear in the comment body, which has at most 65000 bytes. -/
theorem commentBody_lines_counterexample :
    qualifyingLines (stringsReplaceAll longPlusLine (ascii "tok") redaction) = [longPlusLine] ∧
      ¬ Contains (commentBody none (stringsReplaceAll longPlusLine (ascii "tok") redaction))
        longPlusLine := by
  obtain ⟨h1, h2⟩ := plusLine_qualifies 65000
  refine ⟨?_, ?_⟩
  · rw [longPlusLine, h1]
    exact h2
  · intro h
    have hle := List.IsInfix.length_le h
    have hbody := commentBody_length_le none longPlusLine (ascii "tok")
    have hlen : longPlusLine.length = 65001 := by
      rw [longPlusLine, List.length_cons, List.length_replicate]
    omega

end PublishingBot
